import Mathlib

/-!
Verification of the schoolcontacts lead-enrichment pipeline against its
natural-language specification.

Modelling conventions for the shallow embedding of the Python sources:
Python strings are lists of characters (`Str`); machine floats are exact
rationals; dictionaries are association lists; `None` and exceptions are
`Option`/`Except` results; external collaborators (page fetcher, URL parser,
JSON parser, generative-text provider, pipeline phases) are function
parameters.  Every embedded definition names the source function it is
translated from.
-/

set_option linter.unusedVariables false

/-- Python strings, modelled as lists of characters. -/
abbrev Str := List Char

/-- Python truthiness of an optional string: `None` and the empty string are falsy. -/
def optTruthy : Option Str → Bool
  | none => false
  | some s => !s.isEmpty

/-- Whitespace as matched by the regex class `\s` (ASCII fragment). -/
def pyIsSpace (c : Char) : Bool :=
  c = ' ' || c = '\t' || c = '\n' || c = '\r' || c = '\x0b' || c = '\x0c'

/-- Model of Python `str.lower()` (ASCII fragment). -/
def pyLower (s : Str) : Str := s.map Char.toLower

/-- Model of Python `str.strip()`: drop surrounding whitespace. -/
def pyStrip (s : Str) : Str :=
  ((s.dropWhile pyIsSpace).reverse.dropWhile pyIsSpace).reverse

/-- Model of `re.sub(r'[^\d+]', '', s)`: keep only digits and plus signs. -/
def cleanPhone (s : Str) : Str := s.filter (fun c => c.isDigit || c = '+')

/-- Maximal run of digits at the front of a string (the group of a leading `\d+`). -/
def digitRun : Str → Str
  | [] => []
  | c :: cs => if c.isDigit then c :: digitRun cs else []

/-- Case-insensitive prefix test, modelling a literal regex under `re.IGNORECASE`. -/
def isPrefixOfCI : Str → Str → Bool
  | [], _ => true
  | _ :: _, [] => false
  | p :: ps, c :: cs => (p.toLower == c.toLower) && isPrefixOfCI ps cs

/-- Substring containment, modelling Python's `pat in s`. -/
def containsSub : Str → Str → Bool
  | pat, [] => pat.isEmpty
  | pat, s@(_ :: cs) => pat.isPrefixOf s || containsSub pat cs

/-- Model of Python `round(x, 2)` on exact rationals: round half to even at two
decimal places, as Python's `round` builtin does. -/
def pyRound2 (q : ℚ) : ℚ :=
  ((if q * 100 - ⌊q * 100⌋ < 1 / 2 then (⌊q * 100⌋ : ℤ)
    else if 1 / 2 < q * 100 - ⌊q * 100⌋ then ⌊q * 100⌋ + 1
    else if ⌊q * 100⌋ % 2 = 0 then ⌊q * 100⌋ else ⌊q * 100⌋ + 1 : ℤ) : ℚ) / 100

/-- Stable insertion of `a` into `l`, placing `a` before the first element whose
key is not smaller: elements inserted later among equal keys keep later positions. -/
def stableInsert {α : Type} (key : α → Nat) (a : α) : List α → List α
  | [] => [a]
  | b :: l => if key b < key a then b :: stableInsert key a l else a :: b :: l

/-- Stable sort by a natural-number key, modelling Python's stable `list.sort(key=...)`. -/
def stableSortByKey {α : Type} (key : α → Nat) : List α → List α
  | [] => []
  | a :: l => stableInsert key a (stableSortByKey key l)

/-! ## Data model (src/models.py) -/

/-- Priority levels for decision makers (`RolePriority` in src/models.py, declaration order
highest, high, medium, low, lowest). -/
inductive RolePriority
  | highest
  | high
  | medium
  | low
  | lowest
deriving DecidableEq, Repr

/-- Position of a priority value in the enum declaration order, modelling
`list(RolePriority).index(x.priority)`. -/
def RolePriority.index : RolePriority → Nat
  | .highest => 0
  | .high => 1
  | .medium => 2
  | .low => 3
  | .lowest => 4

/-- Fields of `DecisionMaker` (src/models.py) used by the claims; the float
`confidence` field plays no role in any claim and is omitted. -/
structure DecisionMaker where
  name : Option Str := none
  role : Option Str := none
  role_indonesian : Option Str := none
  priority : RolePriority := .lowest
  email : Option Str := none
  phone : Option Str := none
  whatsapp : Option Str := none
  whatsapp_verified : Bool := false
  email_verified : Bool := false
  email_is_personal : Bool := false
  linkedin_url : Option Str := none
  source_url : Option Str := none
deriving DecidableEq, Repr

/-- Fields of `SchoolData` (src/models.py) used by the claims; float and timestamp
metadata fields are omitted, and the derived quality score is returned by
`calculate_quality_score` rather than stored. -/
structure SchoolData where
  school_name : Str := []
  school_type : Str := []
  location : Str := []
  npsn : Option Str := none
  foundation_name : Option Str := none
  decision_makers : List DecisionMaker := []
  official_website : Option Str := none
  official_email : Option Str := none
  whatsapp_business : Option Str := none
  phone_numbers : List Str := []
  instagram : Option Str := none
  facebook : Option Str := none
  youtube : Option Str := none
  tech_stack : List Str := []
  source_urls : List Str := []
deriving DecidableEq, Repr

/-- Search of `wa\.me/(\d+)`-style patterns without flags: the digit group at the
first position where the literal `tag` is followed by at least one digit,
modelling `re.search(tag + r'(\d+)', s)` (case-sensitive). -/
def searchTagDigits (tag : Str) : Str → Option Str
  | [] => none
  | s@(_ :: cs) =>
    if tag.isPrefixOf s then
      let ds := digitRun (s.drop tag.length)
      if ds.isEmpty then searchTagDigits tag cs else some ds
    else searchTagDigits tag cs

/-- Embedding of the `DecisionMaker.normalize_whatsapp` field validator
(src/models.py lines 112-138): first a `wa.me/<digits>` search, then a
`phone=<digits>` search, each returning a plus sign followed by the digits
verbatim; otherwise the direct-number branches; an unrecognized value is
returned unchanged. -/
def DecisionMaker.normalize_whatsapp (v : Option Str) : Option Str :=
  match v with
  | none => none
  | some s =>
    if s.isEmpty then none
    else
      match searchTagDigits ("wa.me/".toList) s with
      | some ds => some ('+' :: ds)
      | none =>
        match searchTagDigits ("phone=".toList) s with
        | some ds => some ('+' :: ds)
        | none =>
          let cleaned := cleanPhone s
          if ['0', '8'].isPrefixOf cleaned then some ('+' :: '6' :: '2' :: cleaned.tail)
          else if ['6', '2'].isPrefixOf cleaned then some ('+' :: cleaned)
          else if ['+', '6', '2'].isPrefixOf cleaned then some cleaned
          else some s

/-- Checklist of `SchoolData.calculate_quality_score` (src/models.py lines 231-242):
each entry pairs a Python-truthiness check with its weight. -/
def qualityChecks (d : SchoolData) : List (Bool × ℚ) :=
  [ (optTruthy d.foundation_name, 1 / 10),
    (optTruthy d.npsn, 1 / 10),
    (optTruthy d.official_website, 1 / 10),
    (optTruthy d.official_email, 15 / 100),
    (optTruthy d.whatsapp_business, 2 / 10),
    (decide (0 < d.decision_makers.length), 15 / 100),
    (d.decision_makers.any (fun dm => optTruthy dm.whatsapp), 1 / 10),
    (d.decision_makers.any (fun dm => optTruthy dm.linkedin_url), 5 / 100),
    (optTruthy d.instagram, 25 / 1000),
    (optTruthy d.facebook, 25 / 1000) ]

/-- Sum of all checklist weights (the loop's `total_weight` accumulation before the bonus). -/
def checksWeight (l : List (Bool × ℚ)) : ℚ := l.foldr (fun p acc => p.2 + acc) 0

/-- Sum of the weights of the satisfied checks (the loop's `score` accumulation). -/
def checksScore (l : List (Bool × ℚ)) : ℚ :=
  l.foldr (fun p acc => (if p.1 then p.2 else 0) + acc) 0

/-- Count of decision makers with both messaging and email verification flags set
(`verified_contacts` in src/models.py lines 250-253). -/
def verifiedContacts (d : SchoolData) : Nat :=
  (d.decision_makers.filter (fun dm => dm.whatsapp_verified && dm.email_verified)).length

/-- Verification bonus of `calculate_quality_score` (src/models.py lines 249-257):
0.10 per doubly verified person, capped at 0.30, zero when no person qualifies. -/
def qualityBonus (d : SchoolData) : ℚ :=
  if 0 < verifiedContacts d then min (3 / 10) ((verifiedContacts d : ℚ) * (1 / 10)) else 0

/-- Embedding of `SchoolData.calculate_quality_score` (src/models.py lines 225-260):
the bonus is added to both the score and the total weight before the final
rounded division; a nonpositive total weight (unreachable here) would yield 0. -/
def SchoolData.calculate_quality_score (d : SchoolData) : ℚ :=
  if 0 < checksWeight (qualityChecks d) + qualityBonus d then
    pyRound2 ((checksScore (qualityChecks d) + qualityBonus d)
      / (checksWeight (qualityChecks d) + qualityBonus d))
  else 0

/-! ## Contact extraction and crawl traversal (src/scraper.py) -/

namespace WebScraper

/-- Embedding of `WebScraper._normalize_indonesian_phone` (src/scraper.py lines 299-321):
strip to digits and plus signs, reject cleaned forms shorter than ten characters,
then rewrite the recognized Indonesian prefixes to `+62`. -/
def normalize_indonesian_phone (phone : Str) : Option Str :=
  if phone.isEmpty then none
  else
    let cleaned := cleanPhone phone
    if cleaned.length < 10 then none
    else if ['0', '8'].isPrefixOf cleaned then some ('+' :: '6' :: '2' :: cleaned.tail)
    else if ['6', '2'].isPrefixOf cleaned && !(['+'].isPrefixOf cleaned) then
      some ('+' :: cleaned)
    else if ['+', '6', '2'].isPrefixOf cleaned then some cleaned
    else if ['0'].isPrefixOf cleaned then some ('+' :: '6' :: '2' :: cleaned.tail)
    else none

/-- Worker for `findTagDigitsCI`, structurally recursive on a character budget;
every step consumes at least one character of the text, so a budget of the
text's length always suffices. -/
def findTagDigitsCIAux (tag : Str) : Nat → Str → List Str
  | 0, _ => []
  | _, [] => []
  | fuel + 1, c :: cs =>
    if isPrefixOfCI tag (c :: cs) then
      if (digitRun ((c :: cs).drop tag.length)).isEmpty then findTagDigitsCIAux tag fuel cs
      else
        digitRun ((c :: cs).drop tag.length) ::
          findTagDigitsCIAux tag fuel
            ((c :: cs).drop (tag.length + (digitRun ((c :: cs).drop tag.length)).length))
    else findTagDigitsCIAux tag fuel cs

/-- All digit groups of `tag(\d+)` under `re.IGNORECASE`, scanning left to right
without overlap, as `re.finditer` produces them. -/
def findTagDigitsCI (tag s : Str) : List Str := findTagDigitsCIAux tag s.length s

/-- Characters of the free-text capture class `[\d\s\-()]`. -/
def isWaClassChar (c : Char) : Bool :=
  c.isDigit || pyIsSpace c || c = '-' || c = '(' || c = ')'

/-- Characters of the label-separator class `[:\s]`. -/
def isColonWs (c : Char) : Bool := c = ':' || pyIsSpace c

/-- Capture step of `[+]?[\d\s\-()]+` at the front of `r1`: an optional plus sign
followed by a nonempty greedy run of the capture class; returns the capture and
the remainder after it. -/
def waCaptureFrom (r1 : Str) : Option (Str × Str) :=
  if r1.head? = some '+' then
    if (r1.tail.takeWhile isWaClassChar).isEmpty then none
    else
      some ('+' :: r1.tail.takeWhile isWaClassChar,
        r1.tail.drop (r1.tail.takeWhile isWaClassChar).length)
  else
    if (r1.takeWhile isWaClassChar).isEmpty then none
    else some (r1.takeWhile isWaClassChar, r1.drop (r1.takeWhile isWaClassChar).length)

/-- Continuation of the free-text pattern `[:\s]*([+]?[\d\s\-()]+)` after a matched
label of `labelLen` characters: skip the separator run, then capture.  Degenerate
whitespace-only captures that a backtracking engine can still produce contain no
digits and are erased by the digit-strip and normalization applied to every
match, so they are not produced here. -/
def waLabelCapture (labelLen : Nat) (s : Str) : Option (Str × Str) :=
  waCaptureFrom ((s.drop labelLen).dropWhile isColonWs)

theorem waCaptureFrom_rest_length {r1 g rest : Str}
    (h : waCaptureFrom r1 = some (g, rest)) : rest.length ≤ r1.length := by
  unfold waCaptureFrom at h
  have htail : r1.tail.length ≤ r1.length := by cases r1 <;> simp
  split at h
  · split at h
    · exact absurd h (by simp)
    · simp only [Option.some.injEq, Prod.mk.injEq] at h
      have hr : rest.length = r1.tail.length - (r1.tail.takeWhile isWaClassChar).length := by
        rw [← h.2, List.length_drop]
      omega
  · split at h
    · exact absurd h (by simp)
    · simp only [Option.some.injEq, Prod.mk.injEq] at h
      have hr : rest.length = r1.length - (r1.takeWhile isWaClassChar).length := by
        rw [← h.2, List.length_drop]
      omega

theorem waLabelCapture_rest_length {labelLen : Nat} {s g rest : Str}
    (h : waLabelCapture labelLen s = some (g, rest)) :
    rest.length ≤ s.length - labelLen := by
  have h1 := waCaptureFrom_rest_length h
  have h2 : ((s.drop labelLen).dropWhile isColonWs).length ≤ (s.drop labelLen).length :=
    (List.dropWhile_suffix _).length_le
  simp only [List.length_drop] at h2
  omega

/-- Worker for `findFreeTextWA`, structurally recursive on a character budget;
every step consumes at least one character of the text, so a budget of the
text's length always suffices. -/
def findFreeTextWAAux : Nat → Str → List Str
  | 0, _ => []
  | _, [] => []
  | fuel + 1, c :: cs =>
    match (if isPrefixOfCI ('w' :: 'a' :: []) (c :: cs)
        then waLabelCapture 2 (c :: cs) else none) with
    | some (g, rest) => g :: findFreeTextWAAux fuel rest
    | none =>
      match (if isPrefixOfCI ('w' :: 'h' :: 'a' :: 't' :: 's' :: 'a' :: 'p' :: 'p' :: [])
          (c :: cs) then waLabelCapture 8 (c :: cs) else none) with
      | some (g, rest) => g :: findFreeTextWAAux fuel rest
      | none => findFreeTextWAAux fuel cs

/-- All captures of the free-text pattern
`(?:WA|WhatsApp|Whatsapp)[:\s]*([+]?[\d\s\-()]+)` under `re.IGNORECASE`
(src/scraper.py line 269), scanning left to right without overlap: at each
position the two-character label is tried first, then the eight-character one,
matching the alternation order of the regex. -/
def findFreeTextWA (s : Str) : List Str := findFreeTextWAAux s.length s

/-- Embedding of `WebScraper.extract_whatsapp_links` (src/scraper.py lines 237-276):
`wa.me` deep links and `api.whatsapp.com/send?phone=` links are rewritten inline by
prefixing `+` (or `+62` when the digits do not start with 62); labeled free-text
numbers are stripped to digits and plus signs and passed through
`normalize_indonesian_phone`; the final `list(set(...))` is modelled as `dedup`
(the Python set iteration order is unspecified). -/
def extract_whatsapp_links (text : Str) : List Str :=
  let l1 := (findTagDigitsCI ("wa.me/".toList) text).map
    (fun num => if ['6', '2'].isPrefixOf num then '+' :: num else '+' :: '6' :: '2' :: num)
  let l2 := (findTagDigitsCI ("api.whatsapp.com/send?phone=".toList) text).map
    (fun num => if ['6', '2'].isPrefixOf num then '+' :: num else '+' :: '6' :: '2' :: num)
  let l3 := (findFreeTextWA text).filterMap
    (fun m => normalize_indonesian_phone (m.filter (fun c => c.isDigit || c = '+')))
  (l1 ++ l2 ++ l3).dedup

end WebScraper

/-! ## Crawl traversal (src/scraper.py lines 156-231) -/

namespace WebScraper

/-- The `config.PRIORITY_PAGES` keyword list (src/config.py lines 327-352). -/
def PRIORITY_PAGES : List Str :=
  [ "tentang-kami".toList,
    "tentang".toList,
    "profil".toList,
    "struktur-organisasi".toList,
    "pengurus".toList,
    "kontak".toList,
    "hubungi-kami".toList,
    "hubungi".toList,
    "visi-misi".toList,
    "yayasan".toList,
    "foundation".toList,
    "about".toList,
    "about-us".toList,
    "organization".toList,
    "structure".toList,
    "leadership".toList,
    "board".toList,
    "team".toList,
    "contact".toList,
    "contact-us".toList,
    "profile".toList ]

/-- The priority test of the crawl loop:
`any(kw in link.lower() for kw in config.PRIORITY_PAGES)`. -/
def isPriorityLink (link : Str) : Bool :=
  PRIORITY_PAGES.any (fun kw => containsSub kw (pyLower link))

/-- Summary of a fetched page as the crawl loop consumes it: its URL, the success
flag, and its extracted links (`ScrapedPage` in src/models.py restricted to the
fields the traversal reads). -/
structure FetchedPage where
  url : Str
  success : Bool
  links : List Str
deriving DecidableEq, Repr

/-- Embedding of the while-loop of `WebScraper.scrape_school_website`
(src/scraper.py lines 187-229).  `fetch` abstracts `scrape_page` (the external
page fetcher), returning a success flag and the page's links; `netloc` abstracts
`urlparse(...).netloc`.  State: the single `to_visit` work list, the visited
set, and the accumulated successful pages.  Priority links are inserted at index
0 one by one; other links are appended; both only when fresh. -/
def crawlLoop (fetch : Str → Bool × List Str) (netloc : Str → Str) (domain : Str)
    (maxPages : Nat) : List Str → List Str → List FetchedPage → List FetchedPage
  | to_visit, visited, pages =>
    if h1 : to_visit.isEmpty then pages
    else if h2 : maxPages ≤ pages.length then pages
    else
      match to_visit with
      | [] => pages
      | url :: rest =>
        if url ∈ visited then crawlLoop fetch netloc domain maxPages rest visited pages
        else if netloc url ≠ domain then
          crawlLoop fetch netloc domain maxPages rest (url :: visited) pages
        else if (fetch url).1 then
          let visited1 := url :: visited
          let prio := (fetch url).2.filter isPriorityLink
          let others := (fetch url).2.filter
            (fun l => !isPriorityLink l && !visited1.contains l)
          let tv1 := prio.foldl
            (fun tv l => if visited1.contains l || tv.contains l then tv else l :: tv) rest
          let tv2 := others.foldl
            (fun tv l => if visited1.contains l || tv.contains l then tv else tv ++ [l]) tv1
          crawlLoop fetch netloc domain maxPages tv2 visited1
            (pages ++ [⟨url, (fetch url).1, (fetch url).2⟩])
        else crawlLoop fetch netloc domain maxPages rest (url :: visited) pages
termination_by to_visit visited pages => (maxPages - pages.length, to_visit.length)
decreasing_by
  · apply Prod.Lex.right
    simp
  · apply Prod.Lex.right
    simp
  · apply Prod.Lex.left
    simp only [List.length_append, List.length_cons]
    omega
  · apply Prod.Lex.right
    simp

/-- Embedding of `WebScraper.scrape_school_website` (src/scraper.py lines 156-231):
seed the work list with the base URL, the visited set empty, and run the loop
with `domain = urlparse(base_url).netloc`. -/
def scrape_school_website (fetch : Str → Bool × List Str) (netloc : Str → Str)
    (base_url : Str) (maxPages : Nat) : List FetchedPage :=
  crawlLoop fetch netloc (netloc base_url) maxPages [base_url] [] []

/-- Insertion of fresh priority links at the front of the priority queue, one by
one (LIFO/stack discipline); freshness is checked against the visited set, the
priority queue built so far, and the normal queue. -/
def pushPriorityFront (visited nqv pq prio : List Str) : List Str :=
  prio.foldl
    (fun q l => if visited.contains l || q.contains l || nqv.contains l then q else l :: q) pq

/-- Insertion of fresh priority links at the back of the priority queue (FIFO
discipline), as the specification's design note prescribes. -/
def pushPriorityBack (visited nqv pq prio : List Str) : List Str :=
  prio.foldl
    (fun q l => if visited.contains l || q.contains l || nqv.contains l then q else q ++ [l])
    pq

/-- Insertion of fresh normal links at the back of the normal queue (FIFO). -/
def pushNormalBack (visited pqv nq others : List Str) : List Str :=
  others.foldl
    (fun q l => if visited.contains l || pqv.contains l || q.contains l then q else q ++ [l])
    nq

/-- Two-queue crawl as the specification's design note prescribes: explicit
priority and normal queues, drained priority-first, each FIFO (new links
appended at the back of their queue); freshness is checked against both queues
and the visited set.  Written from the specification's words for the
refinement comparison of the claim. -/
def twoQueueFifoLoop (fetch : Str → Bool × List Str) (netloc : Str → Str) (domain : Str)
    (maxPages : Nat) :
    List Str → List Str → List Str → List FetchedPage → List FetchedPage
  | pq, nq, visited, pages =>
    if h2 : maxPages ≤ pages.length then pages
    else
      match pq, nq with
      | [], [] => pages
      | [], url :: nrest =>
        if url ∈ visited then twoQueueFifoLoop fetch netloc domain maxPages [] nrest visited pages
        else if netloc url ≠ domain then
          twoQueueFifoLoop fetch netloc domain maxPages [] nrest (url :: visited) pages
        else if (fetch url).1 then
          twoQueueFifoLoop fetch netloc domain maxPages
            (pushPriorityBack (url :: visited) nrest []
              ((fetch url).2.filter isPriorityLink))
            (pushNormalBack (url :: visited)
              (pushPriorityBack (url :: visited) nrest []
                ((fetch url).2.filter isPriorityLink))
              nrest
              ((fetch url).2.filter
                (fun l => !isPriorityLink l && !(url :: visited).contains l)))
            (url :: visited)
            (pages ++ [⟨url, (fetch url).1, (fetch url).2⟩])
        else twoQueueFifoLoop fetch netloc domain maxPages [] nrest (url :: visited) pages
      | url :: prest, nq =>
        if url ∈ visited then
          twoQueueFifoLoop fetch netloc domain maxPages prest nq visited pages
        else if netloc url ≠ domain then
          twoQueueFifoLoop fetch netloc domain maxPages prest nq (url :: visited) pages
        else if (fetch url).1 then
          twoQueueFifoLoop fetch netloc domain maxPages
            (pushPriorityBack (url :: visited) nq prest
              ((fetch url).2.filter isPriorityLink))
            (pushNormalBack (url :: visited)
              (pushPriorityBack (url :: visited) nq prest
                ((fetch url).2.filter isPriorityLink))
              nq
              ((fetch url).2.filter
                (fun l => !isPriorityLink l && !(url :: visited).contains l)))
            (url :: visited)
            (pages ++ [⟨url, (fetch url).1, (fetch url).2⟩])
        else twoQueueFifoLoop fetch netloc domain maxPages prest nq (url :: visited) pages
termination_by pq nq visited pages => (maxPages - pages.length, pq.length + nq.length)
decreasing_by
  · apply Prod.Lex.right
    simp
  · apply Prod.Lex.right
    simp
  · apply Prod.Lex.left
    simp only [List.length_append, List.length_cons]
    omega
  · apply Prod.Lex.right
    simp
  · apply Prod.Lex.right
    simp
  · apply Prod.Lex.right
    simp
  · apply Prod.Lex.left
    simp only [List.length_append, List.length_cons]
    omega
  · apply Prod.Lex.right
    simp

/-- Two-queue crawl with stack (LIFO) discipline on the priority queue: priority
links are pushed at the front of the priority queue one by one, normal links are
appended at the back of the normal queue; drained priority-first.  This is the
queue discipline the single-list implementation actually realizes. -/
def twoQueueStackLoop (fetch : Str → Bool × List Str) (netloc : Str → Str) (domain : Str)
    (maxPages : Nat) :
    List Str → List Str → List Str → List FetchedPage → List FetchedPage
  | pq, nq, visited, pages =>
    if h2 : maxPages ≤ pages.length then pages
    else
      match pq, nq with
      | [], [] => pages
      | [], url :: nrest =>
        if url ∈ visited then twoQueueStackLoop fetch netloc domain maxPages [] nrest visited pages
        else if netloc url ≠ domain then
          twoQueueStackLoop fetch netloc domain maxPages [] nrest (url :: visited) pages
        else if (fetch url).1 then
          twoQueueStackLoop fetch netloc domain maxPages
            (pushPriorityFront (url :: visited) nrest []
              ((fetch url).2.filter isPriorityLink))
            (pushNormalBack (url :: visited)
              (pushPriorityFront (url :: visited) nrest []
                ((fetch url).2.filter isPriorityLink))
              nrest
              ((fetch url).2.filter
                (fun l => !isPriorityLink l && !(url :: visited).contains l)))
            (url :: visited)
            (pages ++ [⟨url, (fetch url).1, (fetch url).2⟩])
        else twoQueueStackLoop fetch netloc domain maxPages [] nrest (url :: visited) pages
      | url :: prest, nq =>
        if url ∈ visited then
          twoQueueStackLoop fetch netloc domain maxPages prest nq visited pages
        else if netloc url ≠ domain then
          twoQueueStackLoop fetch netloc domain maxPages prest nq (url :: visited) pages
        else if (fetch url).1 then
          twoQueueStackLoop fetch netloc domain maxPages
            (pushPriorityFront (url :: visited) nq prest
              ((fetch url).2.filter isPriorityLink))
            (pushNormalBack (url :: visited)
              (pushPriorityFront (url :: visited) nq prest
                ((fetch url).2.filter isPriorityLink))
              nq
              ((fetch url).2.filter
                (fun l => !isPriorityLink l && !(url :: visited).contains l)))
            (url :: visited)
            (pages ++ [⟨url, (fetch url).1, (fetch url).2⟩])
        else twoQueueStackLoop fetch netloc domain maxPages prest nq (url :: visited) pages
termination_by pq nq visited pages => (maxPages - pages.length, pq.length + nq.length)
decreasing_by
  · apply Prod.Lex.right
    simp
  · apply Prod.Lex.right
    simp
  · apply Prod.Lex.left
    simp only [List.length_append, List.length_cons]
    omega
  · apply Prod.Lex.right
    simp
  · apply Prod.Lex.right
    simp
  · apply Prod.Lex.right
    simp
  · apply Prod.Lex.left
    simp only [List.length_append, List.length_cons]
    omega
  · apply Prod.Lex.right
    simp

/-- Two-queue FIFO crawl entry point (specification design-note semantics):
the root URL is pushed onto the priority queue. -/
def twoQueueFifoCrawl (fetch : Str → Bool × List Str) (netloc : Str → Str)
    (base_url : Str) (maxPages : Nat) : List FetchedPage :=
  twoQueueFifoLoop fetch netloc (netloc base_url) maxPages [base_url] [] [] []

/-- Two-queue stack-priority crawl entry point. -/
def twoQueueStackCrawl (fetch : Str → Bool × List Str) (netloc : Str → Str)
    (base_url : Str) (maxPages : Nat) : List FetchedPage :=
  twoQueueStackLoop fetch netloc (netloc base_url) maxPages [base_url] [] [] []

end WebScraper

/-! ## Contact validation (src/validator.py) -/

namespace ContactValidator

/-- Embedding of `ContactValidator._normalize_phone` (src/validator.py lines 277-292):
the same prefix rewriting as the scraper's normalizer but with no minimum-length
rejection and no landline fallback branch. -/
def normalize_phone (phone : Str) : Option Str :=
  if phone.isEmpty then none
  else
    let cleaned := cleanPhone phone
    if ['0', '8'].isPrefixOf cleaned then some ('+' :: '6' :: '2' :: cleaned.tail)
    else if ['6', '2'].isPrefixOf cleaned && !(['+'].isPrefixOf cleaned) then
      some ('+' :: cleaned)
    else if ['+', '6', '2'].isPrefixOf cleaned then some cleaned
    else none

/-- Match of the heuristic mobile pattern `^\+628\d{8,10}$` (src/validator.py line 89). -/
def matchesMobile : Str → Bool
  | '+' :: '6' :: '2' :: '8' :: ds =>
    ds.all Char.isDigit && decide (8 ≤ ds.length) && decide (ds.length ≤ 10)
  | _ => false

/-- Result dictionary of `verify_whatsapp` (src/validator.py lines 56-60); the
`exists` key is named `waExists`. -/
structure WAVerifyResult where
  waExists : Bool
  is_mobile : Bool
  is_valid_format : Bool
deriving DecidableEq, Repr

/-- The validator instance's `whatsapp_cache` dictionary, keyed by normalized value. -/
abbrev WACache := List (Str × Bool)

/-- Placeholder body of `ContactValidator._check_whatsapp_api`
(src/validator.py lines 100-119), which always returns False. -/
def check_whatsapp_api (_phone : Str) : Bool := false

/-- Embedding of `ContactValidator.verify_whatsapp` (src/validator.py lines 36-98):
normalize, fail fast on invalid format, consult the cache, otherwise decide by
external API (placeholder) or by the heuristic mobile pattern, and cache the
`exists` boolean under the normalized value.  Takes and returns the instance's
cache. -/
def verify_whatsapp (cache : WACache) (phone_number : Str) (use_api : Bool) :
    WAVerifyResult × WACache :=
  match normalize_phone phone_number with
  | none => (⟨false, false, false⟩, cache)
  | some normalized =>
    let is_mobile := ['+', '6', '2', '8'].isPrefixOf normalized
      || ("+62 8".toList).isPrefixOf normalized
    match cache.lookup normalized with
    | some b => (⟨b, is_mobile, true⟩, cache)
    | none =>
      if use_api then
        let ex := check_whatsapp_api normalized
        (⟨ex, is_mobile, true⟩, (normalized, ex) :: cache)
      else if matchesMobile (normalized.filter (fun c => c ≠ ' ')) then
        (⟨true, true, true⟩, (normalized, true) :: cache)
      else (⟨false, is_mobile, true⟩, (normalized, false) :: cache)

end ContactValidator

/-! ## Structured-output parsing and deduplication (src/extractor.py) -/

namespace LLMExtractor

/-- Backtick character, written by code point. -/
def btick : Char := Char.ofNat 96

/-- Opening brace character, written by code point. -/
def lbrace : Char := Char.ofNat 123

/-- Closing brace character, written by code point. -/
def rbrace : Char := Char.ofNat 125

/-- A code fence: three backticks. -/
def fenceTok : Str := [btick, btick, btick]

/-- The tagged fence opening of the first pattern: three backticks then `json`. -/
def jsonFenceTok : Str := fenceTok ++ ('j' :: 's' :: 'o' :: 'n' :: [])

/-- Decomposition at the first occurrence of `pat`: the text strictly before it
and the text strictly after it. -/
def splitFirst (pat : Str) : Str → Option (Str × Str)
  | [] => none
  | c :: cs =>
    if pat.isPrefixOf (c :: cs) then some ([], (c :: cs).drop pat.length)
    else
      match splitFirst pat cs with
      | some (pre, post) => some (c :: pre, post)
      | none => none

theorem splitFirst_post_length {pat s pre post : Str} (hpat : pat ≠ [])
    (h : splitFirst pat s = some (pre, post)) : post.length < s.length := by
  induction s generalizing pre with
  | nil => simp [splitFirst] at h
  | cons c cs ih =>
    unfold splitFirst at h
    split at h
    · simp only [Option.some.injEq, Prod.mk.injEq] at h
      have : post.length = (c :: cs).length - pat.length := by
        rw [← h.2, List.length_drop]
      have hp : 1 ≤ pat.length := by
        cases pat
        · exact absurd rfl hpat
        · simp
      simp only [List.length_cons] at *
      omega
    · rcases hsp : splitFirst pat cs with _ | ⟨pre2, post2⟩
      · rw [hsp] at h
        exact absurd h (by simp)
      · rw [hsp] at h
        simp only [Option.some.injEq, Prod.mk.injEq] at h
        have := @ih pre2 (by rw [hsp, h.2])
        simp only [List.length_cons]
        omega

/-- All captures of a fenced-block pattern `openTok \s* ([\s\S]*?) \s* ```` under
`re.findall`: the text between each occurrence of `openTok` and the next closing
fence, surrounding whitespace trimmed, scanning left to right without overlap.
The lazy group together with the greedy whitespace guards on both sides captures
exactly the trimmed text up to the next fence. -/
def fencedMatches (openTok : Str) (s : Str) : List Str :=
  if hop : openTok.isEmpty then []
  else
    match h1 : splitFirst openTok s with
    | none => []
    | some (_, rest) =>
      match h2 : splitFirst fenceTok rest with
      | none => []
      | some (pre, post) => pyStrip pre :: fencedMatches openTok post
termination_by s.length
decreasing_by
  · have hr : rest.length < s.length :=
      splitFirst_post_length (by simpa [List.isEmpty_iff] using hop) h1
    have hp : post.length < rest.length :=
      splitFirst_post_length (by simp [fenceTok]) h2
    omega

/-- Capture of the greedy brace pattern `(\{[\s\S]*\})` under `re.findall`: the
first opening brace through the last closing brace, when that span has both
braces; `re.findall` yields at most this one match for the greedy pattern. -/
def braceMatches (s : Str) : List Str :=
  let t := ((s.dropWhile (fun c => c ≠ lbrace)).reverse.dropWhile (fun c => c ≠ rbrace)).reverse
  if 2 ≤ t.length then [t] else []

/-- Embedding of `LLMExtractor._extract_json` (src/extractor.py lines 341-367):
try the three regex patterns in order, inside each pattern try its matches in
order, finally try the whole text; return the first candidate accepted by the
external JSON parser, `none` otherwise.  `json.loads` is abstracted as the
predicate `valid`; a candidate on which it raises `JSONDecodeError` corresponds
to `valid c = false`, and the `try`/`except` control flow becomes the explicit
`find?` selection, which never raises. -/
def extract_json (valid : Str → Bool) (text : Str) : Option Str :=
  match (fencedMatches jsonFenceTok text).find? valid with
  | some m => some m
  | none =>
    match (fencedMatches fenceTok text).find? valid with
    | some m => some m
    | none =>
      match (braceMatches text).find? valid with
      | some m => some m
      | none => if valid text then some text else none

/-- The candidate sequence `_extract_json` scans, in order: tagged-fence captures,
untagged-fence captures, the brace span, the whole text. -/
def jsonCandidates (text : Str) : List Str :=
  fencedMatches jsonFenceTok text ++ fencedMatches fenceTok text
    ++ braceMatches text ++ [text]

/-- Dedup key of `validate_and_deduplicate`: `dm.name.lower().strip()`
(src/extractor.py line 459). -/
def nameKey (s : Str) : Str := pyStrip (pyLower s)

/-- The dedup loop of `validate_and_deduplicate` (src/extractor.py lines 454-462):
keep the first record for each name key, dropping records whose name is missing
or empty (falsy in Python). -/
def dedupByName : List DecisionMaker → List Str → List DecisionMaker
  | [], _ => []
  | dm :: rest, seen =>
    match dm.name with
    | some (c :: cs) =>
      if nameKey (c :: cs) ∈ seen then dedupByName rest seen
      else dm :: dedupByName rest (nameKey (c :: cs) :: seen)
    | _ => dedupByName rest seen

/-- Embedding of `LLMExtractor.validate_and_deduplicate` (src/extractor.py lines
446-477): dedup decision makers by name key, sort them stably by
`list(RolePriority).index(x.priority)` (Python's `list.sort` is stable), and
dedup the phone-number and source-url lists (`list(set(...))`, modelled as
`dedup`; the Python set iteration order is unspecified).  The quality-score
recomputation mutates a field this model derives on demand, so it is a no-op
here. -/
def validate_and_deduplicate (d : SchoolData) : SchoolData :=
  { d with
    decision_makers :=
      stableSortByKey (fun dm => dm.priority.index) (dedupByName d.decision_makers []),
    phone_numbers := d.phone_numbers.dedup,
    source_urls := d.source_urls.dedup }

/-- Dedup key of a decision maker: the name key of its name, empty when absent. -/
def dmKey (dm : DecisionMaker) : Str := nameKey (dm.name.getD [])

end LLMExtractor

/-! ## Orchestrator (src/main.py) -/

namespace LeadEnrichmentEngine

/-- Input model `SchoolInput` (src/models.py lines 40-55). -/
structure SchoolInput where
  name : Str
  schoolType : Str := []
  location : Str := []
  notes : Option Str := none
deriving DecidableEq, Repr

/-- Status enum `ProcessingStatus` (src/models.py lines 305-312). -/
inductive ProcessingStatus
  | pending
  | searching
  | scraping
  | extracting
  | completed
  | failed
deriving DecidableEq, Repr

/-- Result model `ProcessingResult` (src/models.py lines 315-323) restricted to the
fields the claims read. -/
structure ProcessingResult where
  school_input : SchoolInput
  school_data : Option SchoolData := none
  status : ProcessingStatus := .pending
  error_message : Option Str := none
deriving DecidableEq, Repr

/-- Batch model `BatchResult` (src/models.py lines 326-334) restricted to the fields
the claims read. -/
structure BatchResult where
  total_schools : Nat
  successful : Nat
  failed : Nat
  results : List ProcessingResult
deriving DecidableEq, Repr

/-- Embedding of `LeadEnrichmentEngine.enrich_school` (src/main.py lines 73-318) at
the orchestrator boundary: the body of the `try` block (search, scrape, extract,
merge, validate phases) is the external computation `pipeline`, which either
produces enriched data or raises, modelled as `Except` carrying `str(e)`.  The
`except` clause (lines 312-316) converts any exception into a failed result with
the message recorded; a successful body ends with status completed and the data
attached. -/
def enrich_school (pipeline : SchoolInput → Except Str SchoolData)
    (school : SchoolInput) : ProcessingResult :=
  match pipeline school with
  | .ok d =>
    { school_input := school, school_data := some d, status := .completed,
      error_message := none }
  | .error e =>
    { school_input := school, school_data := none, status := .failed,
      error_message := some e }

/-- Loop body of `LeadEnrichmentEngine.enrich_batch` (src/main.py lines 347-356) as a
fold step: append the school's result and count it as successful exactly when its
status is completed, otherwise as failed. -/
def enrichStep (pipeline : SchoolInput → Except Str SchoolData)
    (acc : BatchResult) (school : SchoolInput) : BatchResult :=
  let r := enrich_school pipeline school
  { acc with
    results := acc.results ++ [r]
    successful := if r.status = .completed then acc.successful + 1 else acc.successful
    failed := if r.status = .completed then acc.failed else acc.failed + 1 }

/-- Embedding of `LeadEnrichmentEngine.enrich_batch` (src/main.py lines 320-365):
process schools strictly in order starting from an empty result list and zero
counters. -/
def enrich_batch (pipeline : SchoolInput → Except Str SchoolData)
    (schools : List SchoolInput) : BatchResult :=
  schools.foldl (enrichStep pipeline)
    { total_schools := schools.length, successful := 0, failed := 0, results := [] }

end LeadEnrichmentEngine

/-! ## Helper lemmas -/

theorem cleanPhone_of_digits {s : Str} (h : ∀ c ∈ s, c.isDigit = true) :
    cleanPhone s = s := by
  apply List.filter_eq_self.mpr
  intro c hc
  simp [h c hc]

/-! ## C6: Indonesian phone normalization -/

/-- C6: every input consisting of "08" followed by 8 to 11 digits normalizes to
"+62" concatenated with the input minus its leading "0" in the scraper's
normalizer; every input whose cleaned form is shorter than 10 characters is
rejected (returns none); and the validator's normalizer agrees on the
"08"-prefixed digit inputs. -/
theorem C6_phone_normalization :
    (∀ t : Str, (∀ c ∈ t, c.isDigit = true) → 8 ≤ t.length → t.length ≤ 11 →
      WebScraper.normalize_indonesian_phone ('0' :: '8' :: t)
        = some ('+' :: '6' :: '2' :: '8' :: t)) ∧
    (∀ s : Str, (cleanPhone s).length < 10 →
      WebScraper.normalize_indonesian_phone s = none) ∧
    (∀ t : Str, (∀ c ∈ t, c.isDigit = true) →
      ContactValidator.normalize_phone ('0' :: '8' :: t)
        = some ('+' :: '6' :: '2' :: '8' :: t)) := by
  have hclean : ∀ t : Str, (∀ c ∈ t, c.isDigit = true) →
      cleanPhone ('0' :: '8' :: t) = '0' :: '8' :: t := by
    intro t hdig
    apply cleanPhone_of_digits
    intro c hc
    rcases List.mem_cons.mp hc with h0 | hc
    · subst h0
      decide
    rcases List.mem_cons.mp hc with h8 | hc
    · subst h8
      decide
    · exact hdig c hc
  refine ⟨?_, ?_, ?_⟩
  · intro t hdig h8 h11
    have hc := hclean t hdig
    have hpre : (['0', '8'] : Str).isPrefixOf ('0' :: '8' :: t) = true := by
      simp [List.isPrefixOf]
    have hlen : ¬ (cleanPhone ('0' :: '8' :: t)).length < 10 := by
      rw [hc]
      simp only [List.length_cons]
      omega
    simp only [WebScraper.normalize_indonesian_phone, hc, hpre]
    have hlen2 : ¬ ('0' :: '8' :: t).length < 10 := by
      rw [← hc]
      exact hlen
    simp [hlen2]
    omega
  · intro s hshort
    by_cases he : s.isEmpty
    · simp [WebScraper.normalize_indonesian_phone, he]
    · simp [WebScraper.normalize_indonesian_phone, he, hshort]
  · intro t hdig
    have hc := hclean t hdig
    have hpre : (['0', '8'] : Str).isPrefixOf ('0' :: '8' :: t) = true := by
      simp [List.isPrefixOf]
    simp [ContactValidator.normalize_phone, hc, hpre]

/-- C6 witness: the theorem applied at "0812345678" (a "08" plus 8 digits) and at
the too-short "08123". -/
theorem C6_phone_normalization_witness :
    WebScraper.normalize_indonesian_phone ("0812345678".toList)
      = some ("+62812345678".toList) ∧
    WebScraper.normalize_indonesian_phone ("08123".toList) = none ∧
    ContactValidator.normalize_phone ("0812345678".toList)
      = some ("+62812345678".toList) := by
  have h0 : "0812345678".toList = '0' :: '8' :: "12345678".toList := by decide
  have h1 : "+62812345678".toList = '+' :: '6' :: '2' :: '8' :: "12345678".toList := by decide
  refine ⟨?_, ?_, ?_⟩
  · rw [h0, h1]
    exact C6_phone_normalization.1 ("12345678".toList) (by decide) (by decide) (by decide)
  · exact C6_phone_normalization.2.1 ("08123".toList) (by decide)
  · rw [h0, h1]
    exact C6_phone_normalization.2.2 ("12345678".toList) (by decide)

/-! ## C10: model-level WhatsApp field validator -/

/-- C10: the `DecisionMaker.normalize_whatsapp` field validator returns "+"
followed verbatim by the digits of the first `wa.me/<digits>` match (or, absent
one, the first `phone=<digits>` match), with no country-code fix-up and no
minimum-length check: "wa.me/0812345678" yields "+0812345678" and "wa.me/1"
yields "+1". -/
theorem C10_model_whatsapp_verbatim :
    (∀ s ds : Str, s.isEmpty = false →
      searchTagDigits ("wa.me/".toList) s = some ds →
      DecisionMaker.normalize_whatsapp (some s) = some ('+' :: ds)) ∧
    (∀ s ds : Str, s.isEmpty = false →
      searchTagDigits ("wa.me/".toList) s = none →
      searchTagDigits ("phone=".toList) s = some ds →
      DecisionMaker.normalize_whatsapp (some s) = some ('+' :: ds)) ∧
    DecisionMaker.normalize_whatsapp (some ("wa.me/0812345678".toList))
      = some ("+0812345678".toList) ∧
    DecisionMaker.normalize_whatsapp (some ("wa.me/1".toList)) = some ("+1".toList) := by
  refine ⟨?_, ?_, by decide, by decide⟩
  · intro s ds hne hsearch
    have hs : searchTagDigits ['w', 'a', '.', 'm', 'e', '/'] s = some ds := hsearch
    simp [DecisionMaker.normalize_whatsapp, hne, hs]
  · intro s ds hne h1 h2
    have h1a : searchTagDigits ['w', 'a', '.', 'm', 'e', '/'] s = none := h1
    have h2a : searchTagDigits ['p', 'h', 'o', 'n', 'e', '='] s = some ds := h2
    simp [DecisionMaker.normalize_whatsapp, hne, h1a, h2a]

/-- C10 witness: the theorem applied at "see wa.me/99 ok" and at "phone=08123". -/
theorem C10_model_whatsapp_verbatim_witness :
    DecisionMaker.normalize_whatsapp (some ("see wa.me/99 ok".toList))
      = some ('+' :: "99".toList) ∧
    DecisionMaker.normalize_whatsapp (some ("phone=08123".toList))
      = some ('+' :: "08123".toList) := by
  constructor
  · exact C10_model_whatsapp_verbatim.1 _ _ (by decide) (by decide)
  · exact C10_model_whatsapp_verbatim.2.1 _ _ (by decide) (by decide) (by decide)

/-! ## C8: messaging-channel verification -/

theorem verify_whatsapp_lookup_after (cache : ContactValidator.WACache) (phone n : Str)
    (u : Bool) (h : ContactValidator.normalize_phone phone = some n) :
    ((ContactValidator.verify_whatsapp cache phone u).2).lookup n
      = some ((ContactValidator.verify_whatsapp cache phone u).1.waExists) := by
  unfold ContactValidator.verify_whatsapp
  rw [h]
  cases hc : cache.lookup n with
  | some b => simp [hc]
  | none =>
    simp only [hc]
    cases u
    · simp only [Bool.false_eq_true, if_false]
      split
      · simp [List.lookup]
      · simp [List.lookup]
    · simp [List.lookup]

/-- C8: `verify_whatsapp` normalizes first and reports nonexistence on invalid
format; with no cached entry and in heuristic mode it reports existence exactly
when the space-stripped normalized value matches the mobile pattern `+628`
followed by 8 to 10 digits; the boolean is cached under the normalized value,
and any later call whose input normalizes to the same value returns the cached
boolean. -/
theorem C8_verify_whatsapp_contract :
    (∀ (cache : ContactValidator.WACache) (phone : Str) (use_api : Bool),
      ContactValidator.normalize_phone phone = none →
      (ContactValidator.verify_whatsapp cache phone use_api).1.waExists = false ∧
      (ContactValidator.verify_whatsapp cache phone use_api).1.is_valid_format = false) ∧
    (∀ (cache : ContactValidator.WACache) (phone n : Str),
      ContactValidator.normalize_phone phone = some n →
      cache.lookup n = none →
      (ContactValidator.verify_whatsapp cache phone false).1.waExists
        = ContactValidator.matchesMobile (n.filter (fun c => c ≠ ' '))) ∧
    (∀ (cache : ContactValidator.WACache) (phone n : Str) (use_api : Bool),
      ContactValidator.normalize_phone phone = some n →
      ((ContactValidator.verify_whatsapp cache phone use_api).2).lookup n
        = some ((ContactValidator.verify_whatsapp cache phone use_api).1.waExists)) ∧
    (∀ (cache : ContactValidator.WACache) (phone n phone2 : Str) (u1 u2 : Bool),
      ContactValidator.normalize_phone phone = some n →
      ContactValidator.normalize_phone phone2 = some n →
      (ContactValidator.verify_whatsapp
          ((ContactValidator.verify_whatsapp cache phone u1).2) phone2 u2).1.waExists
        = (ContactValidator.verify_whatsapp cache phone u1).1.waExists) := by
  refine ⟨?_, ?_, ?_, ?_⟩
  · intro cache phone u h
    simp [ContactValidator.verify_whatsapp, h]
  · intro cache phone n h hc
    unfold ContactValidator.verify_whatsapp
    rw [h]
    simp only [hc, Bool.false_eq_true, if_false]
    split
    · rename_i hm
      simp only [ne_eq, decide_not] at hm
      simp [hm]
    · rename_i hm
      simp only [Bool.not_eq_true] at hm
      simp only [ne_eq, decide_not] at hm
      simp [hm]
  · intro cache phone n u h
    exact verify_whatsapp_lookup_after cache phone n u h
  · intro cache phone n phone2 u1 u2 h h2
    have hl := verify_whatsapp_lookup_after cache phone n u1 h
    rcases hR : ContactValidator.verify_whatsapp cache phone u1 with ⟨r, cache2⟩
    rw [hR] at hl
    simp only at hl ⊢
    unfold ContactValidator.verify_whatsapp
    simp only [h2, hl]

/-- C8 witness: the theorem applied at the invalid input "77", at the fresh
heuristic verification of "0812345678" (normalizing to "+62812345678", which
matches the mobile pattern), and at a repeated call hitting the cache. -/
theorem C8_verify_whatsapp_contract_witness :
    (ContactValidator.verify_whatsapp [] ("77".toList) false).1.waExists = false ∧
    (ContactValidator.verify_whatsapp [] ("0812345678".toList) false).1.waExists
      = ContactValidator.matchesMobile (("+62812345678".toList).filter (fun c => c ≠ ' ')) ∧
    (ContactValidator.verify_whatsapp
        ((ContactValidator.verify_whatsapp [] ("0812345678".toList) false).2)
        ("+62812345678".toList) true).1.waExists
      = (ContactValidator.verify_whatsapp [] ("0812345678".toList) false).1.waExists := by
  refine ⟨?_, ?_, ?_⟩
  · exact (C8_verify_whatsapp_contract.1 [] ("77".toList) false (by decide)).1
  · exact C8_verify_whatsapp_contract.2.1 [] ("0812345678".toList) ("+62812345678".toList)
      (by decide) (by decide)
  · exact C8_verify_whatsapp_contract.2.2.2 [] ("0812345678".toList) ("+62812345678".toList)
      ("+62812345678".toList) false true (by decide) (by decide)

/-! ## C9: per-entity failure isolation and batch accounting -/

theorem enrich_batch_foldl (pipeline : LeadEnrichmentEngine.SchoolInput → Except Str SchoolData)
    (schools : List LeadEnrichmentEngine.SchoolInput)
    (acc : LeadEnrichmentEngine.BatchResult) :
    (schools.foldl (LeadEnrichmentEngine.enrichStep pipeline) acc).results
        = acc.results ++ schools.map (LeadEnrichmentEngine.enrich_school pipeline) ∧
    (schools.foldl (LeadEnrichmentEngine.enrichStep pipeline) acc).total_schools
        = acc.total_schools ∧
    (schools.foldl (LeadEnrichmentEngine.enrichStep pipeline) acc).successful
        + (schools.foldl (LeadEnrichmentEngine.enrichStep pipeline) acc).failed
      = acc.successful + acc.failed + schools.length := by
  induction schools generalizing acc with
  | nil => simp
  | cons s rest ih =>
    simp only [List.foldl_cons, List.map_cons, List.length_cons]
    refine ⟨?_, ?_, ?_⟩
    · rw [(ih _).1]
      simp [LeadEnrichmentEngine.enrichStep]
    · rw [(ih _).2.1]
      simp [LeadEnrichmentEngine.enrichStep]
    · rw [(ih _).2.2]
      by_cases hs : (LeadEnrichmentEngine.enrich_school pipeline s).status
          = LeadEnrichmentEngine.ProcessingStatus.completed
      · simp [LeadEnrichmentEngine.enrichStep, hs]
        omega
      · simp [LeadEnrichmentEngine.enrichStep, hs]
        omega

/-- C9: `enrich_school` never propagates an exception: a raising pipeline yields a
failed result with the message recorded and no data; `enrich_batch` returns
exactly one result per input, in input order, with the successful and failed
counters summing to the total school count. -/
theorem C9_batch_isolation :
    (∀ (pipeline : LeadEnrichmentEngine.SchoolInput → Except Str SchoolData) school e,
      pipeline school = .error e →
      LeadEnrichmentEngine.enrich_school pipeline school =
        { school_input := school, school_data := none,
          status := .failed, error_message := some e }) ∧
    (∀ (pipeline : LeadEnrichmentEngine.SchoolInput → Except Str SchoolData) schools,
      (LeadEnrichmentEngine.enrich_batch pipeline schools).results
          = schools.map (LeadEnrichmentEngine.enrich_school pipeline) ∧
      (LeadEnrichmentEngine.enrich_batch pipeline schools).total_schools = schools.length ∧
      (LeadEnrichmentEngine.enrich_batch pipeline schools).successful
          + (LeadEnrichmentEngine.enrich_batch pipeline schools).failed
        = schools.length) := by
  constructor
  · intro pipeline school e h
    simp [LeadEnrichmentEngine.enrich_school, h]
  · intro pipeline schools
    have h := enrich_batch_foldl pipeline schools
      { total_schools := schools.length, successful := 0, failed := 0, results := [] }
    unfold LeadEnrichmentEngine.enrich_batch
    refine ⟨?_, ?_, ?_⟩
    · rw [h.1]
      simp
    · exact h.2.1
    · rw [h.2.2]
      simp

/-- C9 witness: the theorem applied to a two-school batch whose pipeline raises on
the first school and succeeds on the second. -/
theorem C9_batch_isolation_witness :
    LeadEnrichmentEngine.enrich_school (fun _ => .error ("boom".toList))
        { name := "bad".toList } =
      { school_input := { name := "bad".toList }, school_data := none,
        status := .failed, error_message := some ("boom".toList) } ∧
    (LeadEnrichmentEngine.enrich_batch
        (fun s => if s.name = "bad".toList then .error ("boom".toList) else .ok {})
        [{ name := "bad".toList }, { name := "good".toList }]).successful
      + (LeadEnrichmentEngine.enrich_batch
          (fun s => if s.name = "bad".toList then .error ("boom".toList) else .ok {})
          [{ name := "bad".toList }, { name := "good".toList }]).failed = 2 := by
  constructor
  · exact C9_batch_isolation.1 _ { name := "bad".toList } ("boom".toList) rfl
  · exact (C9_batch_isolation.2 _ [{ name := "bad".toList }, { name := "good".toList }]).2.2

/-! ## C3: structured-output parsing -/

/-- C3: `_extract_json` scans the candidate sequence — tagged-fence captures,
untagged-fence captures, the greedy brace span, then the whole text, in that
order — and returns the first candidate the JSON parser accepts; it returns
`none` exactly when no candidate is accepted.  Totality of the Lean function
models the absence of escaping exceptions: every `JSONDecodeError` is consumed
by the `continue`/fall-through control flow. -/
theorem C3_extract_json_selection :
    ∀ (valid : Str → Bool) (text : Str),
      LLMExtractor.extract_json valid text
          = (LLMExtractor.jsonCandidates text).find? valid ∧
      (LLMExtractor.extract_json valid text = none ↔
        ∀ c ∈ LLMExtractor.jsonCandidates text, valid c = false) := by
  intro valid text
  have hsel : LLMExtractor.extract_json valid text
      = (LLMExtractor.jsonCandidates text).find? valid := by
    unfold LLMExtractor.extract_json LLMExtractor.jsonCandidates
    simp only [List.find?_append]
    cases h1 : (LLMExtractor.fencedMatches LLMExtractor.jsonFenceTok text).find? valid with
    | some m => simp [h1]
    | none =>
      cases h2 : (LLMExtractor.fencedMatches LLMExtractor.fenceTok text).find? valid with
      | some m => simp [h1, h2]
      | none =>
        cases h3 : (LLMExtractor.braceMatches text).find? valid with
        | some m => simp [h1, h2, h3]
        | none =>
          by_cases hv : valid text
          · simp [h1, h2, h3, hv, List.find?]
          · simp [h1, h2, h3, hv, List.find?]
  refine ⟨hsel, ?_⟩
  rw [hsel, List.find?_eq_none]
  simp

/-! ## C1: quality score -/

theorem checksWeight_qualityChecks (d : SchoolData) : checksWeight (qualityChecks d) = 1 := by
  simp only [qualityChecks, checksWeight, List.foldr_cons, List.foldr_nil]
  norm_num

theorem qualityChecks_weights_nonneg (d : SchoolData) :
    ∀ p ∈ qualityChecks d, 0 ≤ p.2 := by
  intro p hp
  simp only [qualityChecks, List.mem_cons, List.not_mem_nil, or_false] at hp
  rcases hp with rfl | rfl | rfl | rfl | rfl | rfl | rfl | rfl | rfl | rfl <;> norm_num

theorem checksScore_nonneg_le {l : List (Bool × ℚ)} (h : ∀ p ∈ l, 0 ≤ p.2) :
    0 ≤ checksScore l ∧ checksScore l ≤ checksWeight l := by
  induction l with
  | nil => simp [checksScore, checksWeight]
  | cons p rest ih =>
    have hp : 0 ≤ p.2 := h p (by simp)
    have hr := ih (fun q hq => h q (by simp [hq]))
    simp only [checksScore, checksWeight, List.foldr_cons] at *
    constructor
    · have hif : (0 : ℚ) ≤ (if p.1 then p.2 else 0) := by
        split
        · exact hp
        · exact le_refl 0
      linarith [hr.1]
    · have hif : (if p.1 then p.2 else 0) ≤ p.2 := by
        split
        · exact le_refl p.2
        · exact hp
      linarith [hr.2]

theorem qualityBonus_nonneg (d : SchoolData) : 0 ≤ qualityBonus d := by
  unfold qualityBonus
  split
  · apply le_min
    · norm_num
    · positivity
  · exact le_refl 0

theorem pyRound2_mem_unit {q : ℚ} (h0 : 0 ≤ q) (h1 : q ≤ 1) :
    0 ≤ pyRound2 q ∧ pyRound2 q ≤ 1 := by
  have hx0 : (0 : ℚ) ≤ q * 100 := by positivity
  have hx100 : q * 100 ≤ 100 := by linarith
  have hf0 : (0 : ℤ) ≤ ⌊q * 100⌋ := Int.le_floor.mpr (by exact_mod_cast hx0)
  have hfle : (⌊q * 100⌋ : ℚ) ≤ q * 100 := Int.floor_le _
  have hmain : ∀ n : ℤ, 0 ≤ n → n ≤ 100 → 0 ≤ (n : ℚ) / 100 ∧ (n : ℚ) / 100 ≤ 1 := by
    intro n hn0 hn100
    constructor
    · have : (0 : ℚ) ≤ (n : ℚ) := by exact_mod_cast hn0
      positivity
    · rw [div_le_one (by norm_num)]
      exact_mod_cast hn100
  unfold pyRound2
  split
  · apply hmain _ hf0
    have : (⌊q * 100⌋ : ℚ) ≤ 100 := le_trans hfle hx100
    exact_mod_cast this
  · rename_i hr1
    split
    · rename_i hr2
      apply hmain _ (by omega)
      have hflt : (⌊q * 100⌋ : ℚ) < 100 := by linarith
      have : ⌊q * 100⌋ < 100 := by exact_mod_cast hflt
      omega
    · rename_i hr2
      have hreq : q * 100 - ⌊q * 100⌋ = 1 / 2 := le_antisymm (not_lt.mp hr2) (not_lt.mp hr1)
      have hflt : (⌊q * 100⌋ : ℚ) < 100 := by linarith
      have hfi : ⌊q * 100⌋ < 100 := by exact_mod_cast hflt
      split
      · apply hmain _ hf0
        omega
      · apply hmain _ (by omega)
        omega

theorem pyRound2_zero : pyRound2 0 = 0 := by
  have h : ⌊(0 : ℚ) * 100⌋ = 0 := by norm_num
  unfold pyRound2
  rw [h]
  norm_num

theorem pyRound2_one : pyRound2 1 = 1 := by
  have h : ⌊(1 : ℚ) * 100⌋ = 100 := by
    norm_num [Int.floor_eq_iff]
  unfold pyRound2
  rw [h]
  norm_num

/-- C1: the quality score always lies in [0,1]; a record with every checklist
field absent (Python-falsy) and no people scores 0; a record with every
checklist item satisfied and no doubly verified person scores 1; and with k > 0
doubly verified people the score is the rounded quotient of base score plus
min(0.30, 0.10k) over total weight 1 plus the same bonus — the bonus enters
numerator and denominator alike. -/
theorem C1_quality_score :
    (∀ d : SchoolData,
      0 ≤ d.calculate_quality_score ∧ d.calculate_quality_score ≤ 1) ∧
    (∀ d : SchoolData,
      optTruthy d.foundation_name = false → optTruthy d.npsn = false →
      optTruthy d.official_website = false → optTruthy d.official_email = false →
      optTruthy d.whatsapp_business = false → d.decision_makers = [] →
      optTruthy d.instagram = false → optTruthy d.facebook = false →
      d.calculate_quality_score = 0) ∧
    (∀ d : SchoolData,
      optTruthy d.foundation_name = true → optTruthy d.npsn = true →
      optTruthy d.official_website = true → optTruthy d.official_email = true →
      optTruthy d.whatsapp_business = true → 0 < d.decision_makers.length →
      (d.decision_makers.any (fun dm => optTruthy dm.whatsapp)) = true →
      (d.decision_makers.any (fun dm => optTruthy dm.linkedin_url)) = true →
      optTruthy d.instagram = true → optTruthy d.facebook = true →
      verifiedContacts d = 0 →
      d.calculate_quality_score = 1) ∧
    (∀ d : SchoolData, 0 < verifiedContacts d →
      d.calculate_quality_score =
        pyRound2 ((checksScore (qualityChecks d)
            + min (3 / 10) ((verifiedContacts d : ℚ) * (1 / 10)))
          / (1 + min (3 / 10) ((verifiedContacts d : ℚ) * (1 / 10))))) := by
  refine ⟨?_, ?_, ?_, ?_⟩
  · intro d
    have hw := checksWeight_qualityChecks d
    have hs := checksScore_nonneg_le (qualityChecks_weights_nonneg d)
    have hb := qualityBonus_nonneg d
    unfold SchoolData.calculate_quality_score
    rw [hw]
    have hpos : (0 : ℚ) < 1 + qualityBonus d := by linarith
    simp only [hpos, if_true]
    apply pyRound2_mem_unit
    · apply div_nonneg
      · linarith [hs.1]
      · linarith
    · rw [div_le_one hpos]
      linarith [hs.2, hw]
  · intro d h1 h2 h3 h4 h5 h6 h7 h8
    have hscore : checksScore (qualityChecks d) = 0 := by
      simp [qualityChecks, checksScore, h1, h2, h3, h4, h5, h6, h7, h8]
    have hbonus : qualityBonus d = 0 := by
      simp [qualityBonus, verifiedContacts, h6]
    have hw := checksWeight_qualityChecks d
    unfold SchoolData.calculate_quality_score
    rw [hw, hscore, hbonus]
    norm_num [pyRound2_zero]
  · intro d h1 h2 h3 h4 h5 h6 h7 h8 h9 h10 hvc
    have hscore : checksScore (qualityChecks d) = 1 := by
      simp only [qualityChecks, checksScore, List.foldr_cons, List.foldr_nil,
        h1, h2, h3, h4, h5, h7, h8, h9, h10, if_true]
      have h6d : decide (0 < d.decision_makers.length) = true := by
        simpa using h6
      rw [h6d]
      norm_num
    have hbonus : qualityBonus d = 0 := by
      simp [qualityBonus, hvc]
    have hw := checksWeight_qualityChecks d
    unfold SchoolData.calculate_quality_score
    rw [hw, hscore, hbonus]
    norm_num [pyRound2_one]
  · intro d hvc
    have hw := checksWeight_qualityChecks d
    have hbonus : qualityBonus d = min (3 / 10) ((verifiedContacts d : ℚ) * (1 / 10)) := by
      simp [qualityBonus, hvc]
    have hbn := qualityBonus_nonneg d
    unfold SchoolData.calculate_quality_score
    rw [hw, hbonus]
    rw [hbonus] at hbn
    have hpos : (0 : ℚ) < 1 + min (3 / 10) ((verifiedContacts d : ℚ) * (1 / 10)) := by
      linarith
    simp only [hpos, if_true]

/-- C1 witness: the theorem applied to the empty record (score 0, inside [0,1]),
to a fully populated record with no verified person (score 1), and to a record
with one doubly verified person (bonus 0.10 on both sides of the division). -/
theorem C1_quality_score_witness :
    SchoolData.calculate_quality_score {} = 0 ∧
    SchoolData.calculate_quality_score
      { foundation_name := some ("y".toList),
        npsn := some ("12345678".toList),
        official_website := some ("w".toList),
        official_email := some ("e".toList),
        whatsapp_business := some ("b".toList),
        decision_makers :=
          [{ name := some ("a".toList),
             whatsapp := some ("wa".toList),
             linkedin_url := some ("li".toList) }],
        instagram := some ("i".toList),
        facebook := some ("f".toList) } = 1 ∧
    SchoolData.calculate_quality_score
      { decision_makers :=
          [{ name := some ("a".toList),
             whatsapp_verified := true,
             email_verified := true }] }
      = pyRound2 ((checksScore (qualityChecks
            { decision_makers :=
                [{ name := some ("a".toList),
                   whatsapp_verified := true,
                   email_verified := true }] })
          + min (3 / 10) ((verifiedContacts
              { decision_makers :=
                  [{ name := some ("a".toList),
                     whatsapp_verified := true,
                     email_verified := true }] } : ℚ) * (1 / 10)))
        / (1 + min (3 / 10) ((verifiedContacts
              { decision_makers :=
                  [{ name := some ("a".toList),
                     whatsapp_verified := true,
                     email_verified := true }] } : ℚ) * (1 / 10)))) ∧
    0 ≤ SchoolData.calculate_quality_score {} := by
  refine ⟨?_, ?_, ?_, ?_⟩
  · exact C1_quality_score.2.1 {} rfl rfl rfl rfl rfl rfl rfl rfl
  · exact C1_quality_score.2.2.1 _ rfl rfl rfl rfl rfl (by decide) (by decide) (by decide)
      rfl rfl (by decide)
  · exact C1_quality_score.2.2.2 _ (by decide)
  · exact (C1_quality_score.1 {}).1

/-! ## C2: merge deduplication and ordering -/

theorem stableInsert_perm {α : Type} (key : α → Nat) (a : α) (l : List α) :
    (stableInsert key a l).Perm (a :: l) := by
  induction l with
  | nil => simp [stableInsert]
  | cons b l ih =>
    unfold stableInsert
    split
    · exact ((ih.cons b).trans (List.Perm.swap a b l))
    · exact List.Perm.refl _

theorem stableSortByKey_perm {α : Type} (key : α → Nat) (l : List α) :
    (stableSortByKey key l).Perm l := by
  induction l with
  | nil => simp [stableSortByKey]
  | cons a l ih =>
    unfold stableSortByKey
    exact (stableInsert_perm key a _).trans (ih.cons a)

theorem stableInsert_pairwise {α : Type} (key : α → Nat) (a : α) {l : List α}
    (h : l.Pairwise (fun x y => key x ≤ key y)) :
    (stableInsert key a l).Pairwise (fun x y => key x ≤ key y) := by
  induction l with
  | nil => simp [stableInsert]
  | cons b l ih =>
    rcases List.pairwise_cons.mp h with ⟨hb, hl⟩
    unfold stableInsert
    split
    · rename_i hlt
      apply List.pairwise_cons.mpr
      refine ⟨?_, ih hl⟩
      intro x hx
      rcases List.mem_cons.mp ((stableInsert_perm key a l).mem_iff.mp hx) with rfl | hx
      · exact le_of_lt hlt
      · exact hb x hx
    · rename_i hge
      apply List.pairwise_cons.mpr
      refine ⟨?_, h⟩
      intro x hx
      rcases List.mem_cons.mp hx with rfl | hx
      · omega
      · exact le_trans (by omega) (hb x hx)

theorem stableSortByKey_pairwise {α : Type} (key : α → Nat) (l : List α) :
    (stableSortByKey key l).Pairwise (fun x y => key x ≤ key y) := by
  induction l with
  | nil => simp [stableSortByKey]
  | cons a l ih =>
    unfold stableSortByKey
    exact stableInsert_pairwise key a ih

theorem filter_stableInsert {α : Type} (key : α → Nat) (k : Nat) (a : α) (l : List α) :
    (stableInsert key a l).filter (fun x => key x == k)
      = if key a = k then a :: l.filter (fun x => key x == k)
        else l.filter (fun x => key x == k) := by
  induction l with
  | nil =>
    by_cases hak : key a = k
    · simp [stableInsert, hak]
    · simp [stableInsert, hak]
  | cons b l ih =>
    unfold stableInsert
    split
    · rename_i hlt
      by_cases hak : key a = k
      · have hbk : ¬ key b = k := by omega
        simp [List.filter_cons, hak, hbk, ih]
      · by_cases hbk : key b = k
        · simp [List.filter_cons, hak, hbk, ih]
        · simp [List.filter_cons, hak, hbk, ih]
    · by_cases hak : key a = k
      · simp [List.filter_cons, hak]
      · simp [List.filter_cons, hak]

theorem filter_stableSortByKey {α : Type} (key : α → Nat) (k : Nat) (l : List α) :
    (stableSortByKey key l).filter (fun x => key x == k)
      = l.filter (fun x => key x == k) := by
  induction l with
  | nil => simp [stableSortByKey]
  | cons a l ih =>
    unfold stableSortByKey
    rw [filter_stableInsert]
    by_cases hak : key a = k
    · simp [List.filter_cons, hak, ih]
    · simp [List.filter_cons, hak, ih]

theorem dedupByName_nodup (l : List DecisionMaker) (seen : List Str) :
    ((LLMExtractor.dedupByName l seen).map LLMExtractor.dmKey).Nodup ∧
    (∀ k ∈ (LLMExtractor.dedupByName l seen).map LLMExtractor.dmKey, k ∉ seen) := by
  induction l generalizing seen with
  | nil => simp [LLMExtractor.dedupByName]
  | cons dm rest ih =>
    cases hn : dm.name with
    | none =>
      simp only [LLMExtractor.dedupByName, hn]
      exact ih seen
    | some nm =>
      cases nm with
      | nil =>
        simp only [LLMExtractor.dedupByName, hn]
        exact ih seen
      | cons c cs =>
        by_cases hk : LLMExtractor.nameKey (c :: cs) ∈ seen
        · simp only [LLMExtractor.dedupByName, hn, hk, if_true]
          exact ih seen
        · simp only [LLMExtractor.dedupByName, hn, hk, if_false]
          have ihh := ih (LLMExtractor.nameKey (c :: cs) :: seen)
          have hdmk : LLMExtractor.dmKey dm = LLMExtractor.nameKey (c :: cs) := by
            simp [LLMExtractor.dmKey, hn]
          refine ⟨?_, ?_⟩
          · simp only [List.map_cons, List.nodup_cons]
            refine ⟨?_, ihh.1⟩
            intro hmem
            have := ihh.2 _ hmem
            rw [hdmk] at this
            exact this (by simp)
          · intro k hkmem
            simp only [List.map_cons, List.mem_cons] at hkmem
            rcases hkmem with rfl | hkmem
            · rw [hdmk]
              exact hk
            · have := ihh.2 _ hkmem
              intro hcontra
              exact this (by simp [hcontra])

/-- C2 counterexample: two distinct same-tier records named "Zed" then "Alpha"
survive deduplication and are returned in that original order, not in ascending
name order as the claim requires for equal tiers; and a record whose name is the
empty string is dropped entirely rather than kept once per name. -/
theorem C2_merge_dedup_counterexample :
    (LLMExtractor.validate_and_deduplicate
        { decision_makers :=
            [{ name := some ("Zed".toList), priority := .medium },
             { name := some ("Alpha".toList), priority := .medium }] }).decision_makers
      = [{ name := some ("Zed".toList), priority := .medium },
         { name := some ("Alpha".toList), priority := .medium }] ∧
    ("Zed".toList ≠ "Alpha".toList ∧ ¬ ("Zed".toList : List Char) < "Alpha".toList) ∧
    (LLMExtractor.validate_and_deduplicate
        { decision_makers := [{ name := some ([] : Str), priority := .medium }] }).decision_makers
      = [] := by
  refine ⟨by decide, ⟨by decide, by decide⟩, by decide⟩

/-- C2 amended: deduplication keeps the first record per case-insensitive
(trimmed) name key among records with a nonempty name, dropping unnamed or
empty-named records, and the survivors are sorted by priority tier ascending
with the original relative order preserved inside each tier (Python's stable
sort; no name tiebreak); each name key occurs at most once; and a list
containing "Budi Santoso" and "BUDI SANTOSO" yields exactly one record. -/
theorem C2_merge_dedup_sort_amended :
    (∀ d : SchoolData,
      ((LLMExtractor.validate_and_deduplicate d).decision_makers.Pairwise
        (fun x y => x.priority.index ≤ y.priority.index)) ∧
      (∀ k : Nat,
        (LLMExtractor.validate_and_deduplicate d).decision_makers.filter
            (fun dm => dm.priority.index == k)
          = (LLMExtractor.dedupByName d.decision_makers []).filter
            (fun dm => dm.priority.index == k)) ∧
      ((LLMExtractor.validate_and_deduplicate d).decision_makers.map
          LLMExtractor.dmKey).Nodup) ∧
    (LLMExtractor.validate_and_deduplicate
        { decision_makers :=
            [{ name := some ("Budi Santoso".toList) },
             { name := some ("BUDI SANTOSO".toList) }] }).decision_makers.length = 1 := by
  constructor
  · intro d
    refine ⟨?_, ?_, ?_⟩
    · unfold LLMExtractor.validate_and_deduplicate
      exact stableSortByKey_pairwise _ _
    · intro k
      unfold LLMExtractor.validate_and_deduplicate
      exact filter_stableSortByKey _ k _
    · unfold LLMExtractor.validate_and_deduplicate
      have hperm : ((stableSortByKey (fun dm => dm.priority.index)
            (LLMExtractor.dedupByName d.decision_makers [])).map LLMExtractor.dmKey).Perm
          ((LLMExtractor.dedupByName d.decision_makers []).map LLMExtractor.dmKey) :=
        (stableSortByKey_perm _ _).map _
      exact hperm.nodup_iff.mpr (dedupByName_nodup d.decision_makers []).1
  · decide

/-! ## C7: WhatsApp extraction invariant -/

theorem digitRun_digits (s : Str) : ∀ c ∈ digitRun s, c.isDigit = true := by
  induction s with
  | nil => simp [digitRun]
  | cons a s ih =>
    unfold digitRun
    split
    · rename_i ha
      intro c hc
      rcases List.mem_cons.mp hc with rfl | hc
      · exact ha
      · exact ih c hc
    · simp

theorem findTagDigitsCIAux_digits (tag : Str) (fuel : Nat) :
    ∀ s : Str, ∀ ds ∈ WebScraper.findTagDigitsCIAux tag fuel s,
      ds ≠ [] ∧ ∀ c ∈ ds, c.isDigit = true := by
  induction fuel with
  | zero =>
    intro s
    simp [WebScraper.findTagDigitsCIAux]
  | succ fuel ih =>
    intro s
    cases s with
    | nil => simp [WebScraper.findTagDigitsCIAux]
    | cons c cs =>
      unfold WebScraper.findTagDigitsCIAux
      split
      · split
        · exact ih cs
        · rename_i hne
          intro ds hds
          rcases List.mem_cons.mp hds with rfl | hds
          · refine ⟨?_, digitRun_digits _⟩
            simpa [List.isEmpty_iff] using hne
          · exact ih _ ds hds
      · exact ih cs

theorem waCaptureFrom_shape {r1 g rest : Str}
    (h : WebScraper.waCaptureFrom r1 = some (g, rest)) :
    (∀ c ∈ g, WebScraper.isWaClassChar c = true) ∨
    ∃ t, g = '+' :: t ∧ ∀ c ∈ t, WebScraper.isWaClassChar c = true := by
  unfold WebScraper.waCaptureFrom at h
  split at h
  · split at h
    · exact absurd h (by simp)
    · simp only [Option.some.injEq, Prod.mk.injEq] at h
      right
      refine ⟨r1.tail.takeWhile WebScraper.isWaClassChar, h.1.symm, ?_⟩
      intro c hc
      exact List.mem_takeWhile_imp hc
  · split at h
    · exact absurd h (by simp)
    · simp only [Option.some.injEq, Prod.mk.injEq] at h
      left
      intro c hc
      rw [← h.1] at hc
      exact List.mem_takeWhile_imp hc

theorem findFreeTextWAAux_shape (fuel : Nat) :
    ∀ s : Str, ∀ g ∈ WebScraper.findFreeTextWAAux fuel s,
      (∀ c ∈ g, WebScraper.isWaClassChar c = true) ∨
      ∃ t, g = '+' :: t ∧ ∀ c ∈ t, WebScraper.isWaClassChar c = true := by
  induction fuel with
  | zero =>
    intro s
    simp [WebScraper.findFreeTextWAAux]
  | succ fuel ih =>
    intro s
    cases s with
    | nil => simp [WebScraper.findFreeTextWAAux]
    | cons c cs =>
      unfold WebScraper.findFreeTextWAAux
      split
      · rename_i g1 rest1 hcap
        intro g hg
        rcases List.mem_cons.mp hg with rfl | hg
        · split at hcap
          · exact waCaptureFrom_shape hcap
          · exact absurd hcap (by simp)
        · exact ih rest1 g hg
      · split
        · rename_i g1 rest1 hcap
          intro g hg
          rcases List.mem_cons.mp hg with rfl | hg
          · split at hcap
            · exact waCaptureFrom_shape hcap
            · exact absurd hcap (by simp)
          · exact ih rest1 g hg
        · exact ih cs

theorem cleanPhone_plusDigits {t : Str} (ht : ∀ c ∈ t, c.isDigit = true) :
    cleanPhone ('+' :: t) = '+' :: t := by
  unfold cleanPhone
  rw [List.filter_cons_of_pos (by decide)]
  congr 1
  apply List.filter_eq_self.mpr
  intro c hc
  simp [ht c hc]

theorem normalize_output_shape {p v : Str}
    (hcl : (∀ c ∈ cleanPhone p, c.isDigit = true) ∨
      ∃ t, cleanPhone p = '+' :: t ∧ ∀ c ∈ t, c.isDigit = true)
    (h : WebScraper.normalize_indonesian_phone p = some v) :
    ∃ ds : Str, v = '+' :: ds ∧ ds ≠ [] ∧ ∀ c ∈ ds, c.isDigit = true := by
  unfold WebScraper.normalize_indonesian_phone at h
  by_cases hp : p.isEmpty
  · simp [hp] at h
  simp only [hp, Bool.false_eq_true, if_false] at h
  by_cases hlen : (cleanPhone p).length < 10
  · simp [hlen] at h
  simp only [hlen, if_false] at h
  split at h
  · -- starts with 08
    rename_i h08
    rcases List.isPrefixOf_iff_prefix.mp h08 with ⟨rest, hrest⟩
    simp only [Option.some.injEq] at h
    refine ⟨'6' :: '2' :: (cleanPhone p).tail, h.symm, by simp, ?_⟩
    intro c hc
    rcases List.mem_cons.mp hc with rfl | hc
    · decide
    rcases List.mem_cons.mp hc with rfl | hc
    · decide
    have hcp : c ∈ cleanPhone p := List.mem_of_mem_tail hc
    rcases hcl with hd | ⟨t, hteq, htd⟩
    · exact hd c hcp
    · exfalso
      rw [hteq] at hrest
      simp at hrest
  split at h
  · -- starts with 62, no plus
    rename_i h62
    have h62p : (['6', '2'] : Str).isPrefixOf (cleanPhone p) = true := by
      have := h62
      simp only [Bool.and_eq_true] at this
      exact this.1
    rcases List.isPrefixOf_iff_prefix.mp h62p with ⟨rest, hrest⟩
    simp only [Option.some.injEq] at h
    refine ⟨cleanPhone p, h.symm, ?_, ?_⟩
    · rw [← hrest]
      simp
    · intro c hc
      rcases hcl with hd | ⟨t, hteq, htd⟩
      · exact hd c hc
      · rw [hteq] at hrest
        simp at hrest
  split at h
  · -- starts with +62
    rename_i h62p
    rcases List.isPrefixOf_iff_prefix.mp h62p with ⟨rest, hrest⟩
    simp only [Option.some.injEq] at h
    rcases hcl with hd | ⟨t, hteq, htd⟩
    · have : ('+' : Char) ∈ cleanPhone p := by
        rw [← hrest]
        simp
      have := hd _ this
      simp at this
    · refine ⟨t, by rw [← h, hteq], ?_, htd⟩
      rw [hteq] at hrest
      simp only [List.cons_append, List.cons.injEq] at hrest
      intro ht0
      rw [ht0] at hrest
      simp at hrest
  split at h
  · -- landline 0
    rename_i h0
    rcases List.isPrefixOf_iff_prefix.mp h0 with ⟨rest, hrest⟩
    simp only [Option.some.injEq] at h
    refine ⟨'6' :: '2' :: (cleanPhone p).tail, h.symm, by simp, ?_⟩
    intro c hc
    rcases List.mem_cons.mp hc with rfl | hc
    · decide
    rcases List.mem_cons.mp hc with rfl | hc
    · decide
    have hcp : c ∈ cleanPhone p := List.mem_of_mem_tail hc
    rcases hcl with hd | ⟨t, hteq, htd⟩
    · exact hd c hcp
    · rw [hteq] at hrest
      simp at hrest
  · exact absurd h (by simp)

/-- C7 counterexample: "wa.me/123" produces the value "+62123" although
`_normalize_indonesian_phone` rejects that very value as too short — deep-link
matches bypass the normalization (and its rejection rule) applied to free-text
matches, contradicting the claim that every match goes through the same
normalization. -/
theorem C7_whatsapp_counterexample :
    ("+62123".toList ∈ WebScraper.extract_whatsapp_links ("wa.me/123".toList)) ∧
    WebScraper.normalize_indonesian_phone ("+62123".toList) = none := by
  refine ⟨by decide, by decide⟩

/-- C7 amended: every value returned by `extract_whatsapp_links` is a plus sign
followed by a nonempty digit string, and the returned list is deduplicated;
however only labeled free-text matches pass through
`_normalize_indonesian_phone` and its minimum-length rejection — `wa.me` and
`phone=` deep-link digits are normalized inline by prefixing "+" (or "+62")
with no length check. -/
theorem C7_whatsapp_extraction_amended :
    ∀ text : Str,
      (∀ v ∈ WebScraper.extract_whatsapp_links text,
        ∃ ds : Str, v = '+' :: ds ∧ ds ≠ [] ∧ ∀ c ∈ ds, c.isDigit = true) ∧
      (WebScraper.extract_whatsapp_links text).Nodup := by
  intro text
  constructor
  · intro v hv
    unfold WebScraper.extract_whatsapp_links at hv
    rw [List.mem_dedup] at hv
    simp only [List.mem_append] at hv
    have hmap : ∀ num : Str, num ≠ [] → (∀ c ∈ num, c.isDigit = true) →
        ∃ ds : Str, (if (['6', '2'] : Str).isPrefixOf num then '+' :: num
            else '+' :: '6' :: '2' :: num) = '+' :: ds ∧ ds ≠ [] ∧
          ∀ c ∈ ds, c.isDigit = true := by
      intro num hne hd
      split
      · exact ⟨num, rfl, hne, hd⟩
      · refine ⟨'6' :: '2' :: num, rfl, by simp, ?_⟩
        intro c hc
        rcases List.mem_cons.mp hc with rfl | hc
        · decide
        rcases List.mem_cons.mp hc with rfl | hc
        · decide
        · exact hd c hc
    rcases hv with (hv | hv) | hv
    · rcases List.mem_map.mp hv with ⟨num, hnum, rfl⟩
      have hd := findTagDigitsCIAux_digits _ _ _ num hnum
      exact hmap num hd.1 hd.2
    · rcases List.mem_map.mp hv with ⟨num, hnum, rfl⟩
      have hd := findTagDigitsCIAux_digits _ _ _ num hnum
      exact hmap num hd.1 hd.2
    · rcases List.mem_filterMap.mp hv with ⟨m, hm, hnorm⟩
      have hshape := findFreeTextWAAux_shape _ _ m hm
      apply normalize_output_shape ?_ hnorm
      rcases hshape with hclassAll | ⟨t, rfl, hclassT⟩
      · left
        have hdig : ∀ c ∈ m.filter (fun c => c.isDigit || c = '+'), c.isDigit = true := by
          intro c hc
          rcases List.mem_filter.mp hc with ⟨hcm, hpred⟩
          simp only [Bool.or_eq_true, decide_eq_true_eq] at hpred
          rcases hpred with hd | rfl
          · exact hd
          · exact absurd (hclassAll _ hcm) (by decide)
        rw [cleanPhone_of_digits hdig]
        exact hdig
      · right
        have hdigt : ∀ c ∈ t.filter (fun c => c.isDigit || c = '+'), c.isDigit = true := by
          intro c hc
          rcases List.mem_filter.mp hc with ⟨hcm, hpred⟩
          simp only [Bool.or_eq_true, decide_eq_true_eq] at hpred
          rcases hpred with hd | rfl
          · exact hd
          · exact absurd (hclassT _ hcm) (by decide)
        rw [List.filter_cons_of_pos (by decide)]
        rw [cleanPhone_plusDigits hdigt]
        exact ⟨_, rfl, hdigt⟩
  · unfold WebScraper.extract_whatsapp_links
    exact List.nodup_dedup _

/-- C7 amended witness: the theorem applied to a page text containing a deep link
and a labeled number, instantiated at the member "+6281234567890". -/
theorem C7_whatsapp_extraction_amended_witness :
    ∃ ds : Str, ("+6281234567890".toList) = '+' :: ds ∧ ds ≠ [] ∧
      ∀ c ∈ ds, c.isDigit = true := by
  exact (C7_whatsapp_extraction_amended ("wa.me/6281234567890".toList)).1
    ("+6281234567890".toList) (by decide)

/-! ## C4: crawl failure handling and loop bound -/

set_option maxHeartbeats 1000000 in
theorem crawlLoop_success_bound (fetch : Str → Bool × List Str) (netloc : Str → Str)
    (domain : Str) (maxPages : Nat) :
    ∀ (tv visited : List Str) (pages : List WebScraper.FetchedPage),
      (∀ p ∈ pages, p.success = true) → pages.length ≤ maxPages →
      (∀ p ∈ WebScraper.crawlLoop fetch netloc domain maxPages tv visited pages,
          p.success = true) ∧
      (WebScraper.crawlLoop fetch netloc domain maxPages tv visited pages).length ≤ maxPages := by
  intro tv visited pages
  induction tv, visited, pages using WebScraper.crawlLoop.induct fetch netloc domain maxPages with
  | case1 tv visited pages h1 =>
    intro hall hlen
    rw [WebScraper.crawlLoop]
    rw [dif_pos h1]
    exact ⟨hall, hlen⟩
  | case2 tv visited pages h1 h2 =>
    intro hall hlen
    rw [WebScraper.crawlLoop]
    rw [dif_neg h1, dif_pos h2]
    exact ⟨hall, hlen⟩
  | case3 visited pages h2 h1 h1b =>
    exact absurd (rfl : ([] : List Str).isEmpty = true) h1
  | case4 visited pages h2 url rest h1 hvis h1b ih =>
    intro hall hlen
    rw [WebScraper.crawlLoop]
    rw [dif_neg h1, dif_neg h2]
    simp only [if_pos hvis]
    exact ih hall hlen
  | case5 visited pages h2 url rest h1 hvis hdom h1b ih =>
    intro hall hlen
    rw [WebScraper.crawlLoop]
    rw [dif_neg h1, dif_neg h2]
    simp only [if_neg hvis, if_pos hdom]
    exact ih hall hlen
  | case6 visited pages h2 url rest h1 hvis hdom hfs visited1 prio others tv1 tv2 h1b ih =>
    intro hall hlen
    rw [WebScraper.crawlLoop]
    rw [dif_neg h1, dif_neg h2]
    simp only [if_neg hvis, if_neg hdom, if_pos hfs]
    apply ih
    · intro p hp
      rcases List.mem_append.mp hp with hp | hp
      · exact hall p hp
      · simp only [List.mem_singleton] at hp
        subst hp
        exact hfs
    · simp only [List.length_append, List.length_singleton]
      omega
  | case7 visited pages h2 url rest h1 hvis hdom hfs h1b ih =>
    intro hall hlen
    rw [WebScraper.crawlLoop]
    rw [dif_neg h1, dif_neg h2]
    simp only [if_neg hvis, if_neg hdom, if_neg hfs]
    exact ih hall hlen

set_option maxHeartbeats 1000000 in
/-- C4 counterexample: with root "r" linking to "b" (whose fetch fails) and "c"
(which succeeds), and maxPages = 2, the crawl's returned list contains no entry
for the dequeued failing URL "b" — no success=false PageContent is recorded —
and the loop continues past two dequeued (visited) URLs to fetch "c", because
its guard counts successfully recorded pages, not visited URLs. -/
theorem C4_crawl_failure_counterexample :
    WebScraper.scrape_school_website
        (fun u => if u = ['r'] then (true, [['b'], ['c']])
          else if u = ['c'] then (true, []) else (false, []))
        (fun _ => ['d']) ['r'] 2
      = [⟨['r'], true, [['b'], ['c']]⟩, ⟨['c'], true, []⟩] ∧
    (['b'] : Str) ∉ (WebScraper.scrape_school_website
        (fun u => if u = ['r'] then (true, [['b'], ['c']])
          else if u = ['c'] then (true, []) else (false, []))
        (fun _ => ['d']) ['r'] 2).map (fun p => p.url) := by
  have h : WebScraper.scrape_school_website
      (fun u => if u = ['r'] then (true, [['b'], ['c']])
        else if u = ['c'] then (true, []) else (false, []))
      (fun _ => ['d']) ['r'] 2
      = [⟨['r'], true, [['b'], ['c']]⟩, ⟨['c'], true, []⟩] := by
    unfold WebScraper.scrape_school_website
    rw [WebScraper.crawlLoop]
    norm_num [List.filter_cons, List.filter_nil, List.foldl_cons, List.foldl_nil]
    simp +decide [List.foldl_cons, List.foldl_nil]
    rw [WebScraper.crawlLoop]
    norm_num [List.filter_cons, List.filter_nil, List.foldl_cons, List.foldl_nil]
    simp +decide [List.foldl_cons, List.foldl_nil]
    rw [WebScraper.crawlLoop]
    norm_num [List.filter_cons, List.filter_nil, List.foldl_cons, List.foldl_nil]
    simp +decide [List.foldl_cons, List.foldl_nil]
    rw [WebScraper.crawlLoop]
    norm_num
  refine ⟨h, ?_⟩
  rw [h]
  decide

/-- C4 amended: every PageContent in the crawl's returned list has success=true —
a failed fetch is skipped without being recorded, and the traversal continues
non-fatally — and the loop runs while the work queue is non-empty and the count
of successfully recorded pages (not visited URLs) is below maxPages, so the
result never exceeds maxPages entries. -/
theorem C4_crawl_failures_amended :
    ∀ (fetch : Str → Bool × List Str) (netloc : Str → Str) (base : Str) (maxPages : Nat),
      (WebScraper.scrape_school_website fetch netloc base maxPages).all
          (fun p => p.success) = true ∧
      (WebScraper.scrape_school_website fetch netloc base maxPages).length ≤ maxPages := by
  intro fetch netloc base maxPages
  have h := crawlLoop_success_bound fetch netloc (netloc base) maxPages [base] [] []
    (by simp) (by simp)
  unfold WebScraper.scrape_school_website
  constructor
  · rw [List.all_eq_true]
    intro p hp
    exact h.1 p hp
  · exact h.2

/-! ## C5: crawl ordering refinement -/

theorem contains_append_str (pq nq : List Str) (a : Str) :
    (pq ++ nq).contains a = (pq.contains a || nq.contains a) := by
  simp [List.contains, List.elem_eq_mem, List.mem_append]

theorem foldl_front_append (visited : List Str) (prio : List Str) :
    ∀ (pq nq : List Str),
      prio.foldl (fun tv l => if visited.contains l || tv.contains l then tv else l :: tv)
          (pq ++ nq)
        = (WebScraper.pushPriorityFront visited nq pq prio) ++ nq := by
  induction prio with
  | nil => simp [WebScraper.pushPriorityFront]
  | cons a prio ih =>
    intro pq nq
    simp only [WebScraper.pushPriorityFront, List.foldl_cons]
    have hcond : (visited.contains a || (pq ++ nq).contains a)
        = (visited.contains a || pq.contains a || nq.contains a) := by
      rw [contains_append_str, Bool.or_assoc]
    by_cases h : (visited.contains a || pq.contains a || nq.contains a) = true
    · rw [hcond, if_pos h, if_pos h]
      exact ih pq nq
    · rw [hcond, if_neg h, if_neg h]
      have hsh : a :: (pq ++ nq) = (a :: pq) ++ nq := rfl
      rw [hsh]
      exact ih (a :: pq) nq

theorem foldl_back_append (visited : List Str) (others : List Str) :
    ∀ (pq nq : List Str),
      others.foldl (fun tv l => if visited.contains l || tv.contains l then tv else tv ++ [l])
          (pq ++ nq)
        = pq ++ (WebScraper.pushNormalBack visited pq nq others) := by
  induction others with
  | nil => simp [WebScraper.pushNormalBack]
  | cons a others ih =>
    intro pq nq
    simp only [WebScraper.pushNormalBack, List.foldl_cons]
    have hcond : (visited.contains a || (pq ++ nq).contains a)
        = (visited.contains a || pq.contains a || nq.contains a) := by
      rw [contains_append_str, Bool.or_assoc]
    by_cases h : (visited.contains a || pq.contains a || nq.contains a) = true
    · rw [hcond, if_pos h, if_pos h]
      exact ih pq nq
    · rw [hcond, if_neg h, if_neg h]
      rw [List.append_assoc]
      exact ih pq (nq ++ [a])

set_option maxHeartbeats 4000000 in
theorem crawlLoop_eq_twoQueueStack (fetch : Str → Bool × List Str) (netloc : Str → Str)
    (domain : Str) (maxPages : Nat) :
    ∀ (pq nq visited : List Str) (pages : List WebScraper.FetchedPage),
      WebScraper.crawlLoop fetch netloc domain maxPages (pq ++ nq) visited pages
        = WebScraper.twoQueueStackLoop fetch netloc domain maxPages pq nq visited pages := by
  intro pq nq visited pages
  induction pq, nq, visited, pages
    using WebScraper.twoQueueStackLoop.induct fetch netloc domain maxPages with
  | case1 pq nq visited pages h2 =>
    rcases pq with _ | ⟨u, pq⟩ <;> rcases nq with _ | ⟨v, nq⟩ <;>
      rw [WebScraper.crawlLoop, WebScraper.twoQueueStackLoop] <;>
      simp [h2]
  | case2 visited pages h2 =>
    rw [WebScraper.crawlLoop, WebScraper.twoQueueStackLoop]
    simp [h2]
  | case3 visited pages h2 url nrest hvis ih =>
    have hne : ¬ (((url :: nrest) : List Str).isEmpty = true) := by simp
    simp only [List.nil_append] at ih ⊢
    rw [WebScraper.crawlLoop, WebScraper.twoQueueStackLoop]
    rw [dif_neg hne, dif_neg h2, dif_neg h2]
    simp only [if_pos hvis]
    exact ih
  | case4 visited pages h2 url nrest hvis hdom ih =>
    have hne : ¬ (((url :: nrest) : List Str).isEmpty = true) := by simp
    simp only [List.nil_append] at ih ⊢
    rw [WebScraper.crawlLoop, WebScraper.twoQueueStackLoop]
    rw [dif_neg hne, dif_neg h2, dif_neg h2]
    simp only [if_neg hvis, if_pos hdom]
    exact ih
  | case5 visited pages h2 url nrest hvis hdom hfs ih =>
    have hne : ¬ (((url :: nrest) : List Str).isEmpty = true) := by simp
    simp only [List.nil_append] at ih ⊢
    rw [WebScraper.crawlLoop, WebScraper.twoQueueStackLoop]
    rw [dif_neg hne, dif_neg h2, dif_neg h2]
    simp only [if_neg hvis, if_neg hdom, if_pos hfs]
    rw [show nrest = [] ++ nrest from rfl, foldl_front_append, foldl_back_append]
    exact ih
  | case6 visited pages h2 url nrest hvis hdom hfs ih =>
    have hne : ¬ (((url :: nrest) : List Str).isEmpty = true) := by simp
    simp only [List.nil_append] at ih ⊢
    rw [WebScraper.crawlLoop, WebScraper.twoQueueStackLoop]
    rw [dif_neg hne, dif_neg h2, dif_neg h2]
    simp only [if_neg hvis, if_neg hdom, if_neg hfs]
    exact ih
  | case7 visited pages h2 url prest nq hvis ih =>
    have hne : ¬ ((((url :: prest) ++ nq) : List Str).isEmpty = true) := by simp
    rw [WebScraper.crawlLoop, WebScraper.twoQueueStackLoop]
    rw [dif_neg hne, dif_neg h2, dif_neg h2]
    simp only [List.cons_append, if_pos hvis]
    exact ih
  | case8 visited pages h2 url prest nq hvis hdom ih =>
    have hne : ¬ ((((url :: prest) ++ nq) : List Str).isEmpty = true) := by simp
    rw [WebScraper.crawlLoop, WebScraper.twoQueueStackLoop]
    rw [dif_neg hne, dif_neg h2, dif_neg h2]
    simp only [List.cons_append, if_neg hvis, if_pos hdom]
    exact ih
  | case9 visited pages h2 url prest nq hvis hdom hfs ih =>
    have hne : ¬ ((((url :: prest) ++ nq) : List Str).isEmpty = true) := by simp
    rw [WebScraper.crawlLoop, WebScraper.twoQueueStackLoop]
    rw [dif_neg hne, dif_neg h2, dif_neg h2]
    simp only [List.cons_append, if_neg hvis, if_neg hdom, if_pos hfs]
    rw [foldl_front_append, foldl_back_append]
    exact ih
  | case10 visited pages h2 url prest nq hvis hdom hfs ih =>
    have hne : ¬ ((((url :: prest) ++ nq) : List Str).isEmpty = true) := by simp
    rw [WebScraper.crawlLoop, WebScraper.twoQueueStackLoop]
    rw [dif_neg hne, dif_neg h2, dif_neg h2]
    simp only [List.cons_append, if_neg hvis, if_neg hdom, if_neg hfs]
    exact ih

set_option maxHeartbeats 2000000 in
/-- C5 counterexample: a root whose page lists two priority links "team1" then
"team2" is crawled in the order root, team2, team1 by the single-list
implementation (each priority link is inserted at index 0, reversing the batch),
while the specification's two-FIFO-queue reimplementation visits root, team1,
team2 — so the claimed equivalence with FIFO priority draining fails. -/
theorem C5_crawl_fifo_counterexample :
    ((WebScraper.scrape_school_website
        (fun u => if u = ['r'] then (true, ["team1".toList, "team2".toList]) else (true, []))
        (fun _ => ['d']) ['r'] 3).map (fun p => p.url)
      = [['r'], "team2".toList, "team1".toList]) ∧
    ((WebScraper.twoQueueFifoCrawl
        (fun u => if u = ['r'] then (true, ["team1".toList, "team2".toList]) else (true, []))
        (fun _ => ['d']) ['r'] 3).map (fun p => p.url)
      = [['r'], "team1".toList, "team2".toList]) ∧
    ([['r'], "team2".toList, "team1".toList] : List Str)
      ≠ [['r'], "team1".toList, "team2".toList] := by
  refine ⟨?_, ?_, by decide⟩
  · unfold WebScraper.scrape_school_website
    rw [WebScraper.crawlLoop]
    norm_num [List.filter_cons, List.filter_nil, List.foldl_cons, List.foldl_nil]
    simp +decide [List.foldl_cons, List.foldl_nil]
    rw [WebScraper.crawlLoop]
    norm_num [List.filter_cons, List.filter_nil, List.foldl_cons, List.foldl_nil]
    simp +decide [List.foldl_cons, List.foldl_nil]
    rw [WebScraper.crawlLoop]
    norm_num [List.filter_cons, List.filter_nil, List.foldl_cons, List.foldl_nil]
    simp +decide [List.foldl_cons, List.foldl_nil]
    rw [WebScraper.crawlLoop]
    norm_num
  · unfold WebScraper.twoQueueFifoCrawl
    rw [WebScraper.twoQueueFifoLoop]
    norm_num [WebScraper.pushPriorityBack, WebScraper.pushNormalBack,
      List.filter_cons, List.filter_nil, List.foldl_cons, List.foldl_nil]
    simp +decide [List.foldl_cons, List.foldl_nil]
    rw [WebScraper.twoQueueFifoLoop]
    norm_num [WebScraper.pushPriorityBack, WebScraper.pushNormalBack,
      List.filter_cons, List.filter_nil, List.foldl_cons, List.foldl_nil]
    simp +decide [List.foldl_cons, List.foldl_nil]
    rw [WebScraper.twoQueueFifoLoop]
    norm_num [WebScraper.pushPriorityBack, WebScraper.pushNormalBack,
      List.filter_cons, List.filter_nil, List.foldl_cons, List.foldl_nil]
    simp +decide [List.foldl_cons, List.foldl_nil]
    rw [WebScraper.twoQueueFifoLoop]
    norm_num

set_option maxHeartbeats 2000000 in
/-- C5 amended: the single-list crawl is equivalent, for every page graph, to two
explicit queues drained priority-first where the priority queue is a stack
(links pushed at its front, LIFO) and the normal queue is FIFO; and in the
claim's concrete example — root linking to a page whose path contains "about"
and one with no keyword match, maxPages 2 — the traversal visits the root and
then the about-page, never the other. -/
theorem C5_crawl_stack_equivalence_amended :
    (∀ (fetch : Str → Bool × List Str) (netloc : Str → Str) (base : Str) (maxPages : Nat),
      WebScraper.scrape_school_website fetch netloc base maxPages
        = WebScraper.twoQueueStackCrawl fetch netloc base maxPages) ∧
    ((WebScraper.scrape_school_website
        (fun u => if u = ['r'] then (true, ["d/about".toList, "d/x".toList]) else (true, []))
        (fun _ => ['d']) ['r'] 2).map (fun p => p.url)
      = [['r'], "d/about".toList]) := by
  constructor
  · intro fetch netloc base maxPages
    unfold WebScraper.scrape_school_website WebScraper.twoQueueStackCrawl
    have h := crawlLoop_eq_twoQueueStack fetch netloc (netloc base) maxPages [base] [] [] []
    simpa using h
  · unfold WebScraper.scrape_school_website
    rw [WebScraper.crawlLoop]
    norm_num [List.filter_cons, List.filter_nil, List.foldl_cons, List.foldl_nil]
    simp +decide [List.foldl_cons, List.foldl_nil]
    rw [WebScraper.crawlLoop]
    norm_num [List.filter_cons, List.filter_nil, List.foldl_cons, List.foldl_nil]
    simp +decide [List.foldl_cons, List.foldl_nil]
    rw [WebScraper.crawlLoop]
    norm_num

/-- C2 amended witness: the theorem applied to a concrete two-person record. -/
theorem C2_merge_dedup_sort_amended_witness :
    ((LLMExtractor.validate_and_deduplicate
        { decision_makers :=
            [{ name := some ("b".toList), priority := RolePriority.low },
             { name := some ("a".toList), priority := RolePriority.highest }] }).decision_makers.map
        LLMExtractor.dmKey).Nodup := by
  exact (C2_merge_dedup_sort_amended.1 _).2.2

/-- C3 witness: the theorem applied to the accept-everything parser on a
one-character text. -/
theorem C3_extract_json_selection_witness :
    LLMExtractor.extract_json (fun _ => true) ['x']
      = (LLMExtractor.jsonCandidates ['x']).find? (fun _ => true) := by
  exact (C3_extract_json_selection (fun _ => true) ['x']).1

/-- C4 amended witness: the theorem applied to an always-failing fetcher. -/
theorem C4_crawl_failures_amended_witness :
    (WebScraper.scrape_school_website (fun _ => (false, [])) (fun _ => ['d']) ['r'] 2).all
        (fun p => p.success) = true ∧
    (WebScraper.scrape_school_website (fun _ => (false, [])) (fun _ => ['d']) ['r'] 2).length
      ≤ 2 := by
  exact C4_crawl_failures_amended (fun _ => (false, [])) (fun _ => ['d']) ['r'] 2

/-- C5 amended witness: the theorem applied to a link-free one-page site. -/
theorem C5_crawl_stack_equivalence_amended_witness :
    WebScraper.scrape_school_website (fun _ => (true, [])) (fun _ => ['d']) ['r'] 1
      = WebScraper.twoQueueStackCrawl (fun _ => (true, [])) (fun _ => ['d']) ['r'] 1 := by
  exact C5_crawl_stack_equivalence_amended.1 (fun _ => (true, [])) (fun _ => ['d']) ['r'] 1
